import Mathlib

/-!
Verification development for the `resultat-test-injecteur-ips-waf` analysis
scripts (`analyze_results.py`, the "simpler variant", and
`analyze_results_report.py`, the "richer variant").

The scripts extract metrics from free-form log texts with Python `re`
searches, assemble one row per run directory, and display/report them.
We shallowly embed the relevant code here:

* a small regular-expression engine (`RE`, `mall`, `searchFrom`) implementing
  Python's leftmost-first, greedy-backtracking match semantics for exactly the
  constructs used by the scripts (literals, character classes, greedy
  `*`/`+`/`?`, priority alternation, capture groups, `re.IGNORECASE`,
  `re.DOTALL` via the any-char class, `re.MULTILINE` via a line-start search);
* the parsing helpers `parse_avg_cpu_file`, `convert_to_seconds`,
  `parse_wrk_file` of both variants, with Python floats modelled as `ℚ`
  (decimal literals in the logs are exact rationals; binary-float rounding
  artifacts are outside the model);
* the file-selection, concurrency-detection and row/missing-list assembly of
  `collect_results` over an explicit directory-tree datatype;
* the display reordering `custom_order` over an indexed row list (pandas
  row indices made explicit).
-/

namespace Waf

/-- Python `\s` restricted to ASCII, which is all the logs contain. -/
def isPySpace (c : Char) : Bool :=
  c = ' ' || c = '\t' || c = '\n' || c = '\r' || c = '\x0b' || c = '\x0c'

/-- Python `\w` restricted to ASCII. -/
def isPyWord (c : Char) : Bool :=
  c.isAlpha || c.isDigit || c = '_'

/-- The character classes appearing in the scripts' regexes:
`[0-9]`/`\d`, `\s`, `[^\d]`, `[^\n]`, `\w`, and `.` under `re.DOTALL`. -/
inductive CClass where
  | digit
  | pyspace
  | nondigit
  | nonnl
  | word
  | any
deriving DecidableEq

def CClass.mem : CClass → Char → Bool
  | .digit, c => c.isDigit
  | .pyspace, c => isPySpace c
  | .nondigit, c => !c.isDigit
  | .nonnl, c => c ≠ '\n'
  | .word, c => isPyWord c
  | .any, _ => true

/-- Regex abstract syntax, transliterated from the scripts' patterns.
Every quantifier in the source patterns ranges over a single character
class, which is all this engine supports. `lit ci l` is a literal string,
compared case-insensitively when `ci = true` (`re.IGNORECASE`). -/
inductive RE where
  | eps
  | lit (ci : Bool) (l : List Char)
  | one (c : CClass)
  | star (c : CClass)
  | plus (c : CClass)
  | opt (r : RE)
  | alt (a b : RE)
  | cat (a b : RE)
  | grp (i : Nat) (r : RE)

/-- Character comparison, case-insensitive when `ci` (Python `re.IGNORECASE`
on the ASCII log texts). -/
def charMatch (ci : Bool) (a b : Char) : Bool :=
  if ci then a.toLower = b.toLower else a = b

/-- Match a literal at the head of the input, returning the rest. -/
def litMatch (ci : Bool) : List Char → List Char → Option (List Char)
  | [], s => some s
  | _ :: _, [] => none
  | a :: as, b :: bs => if charMatch ci a b then litMatch ci as bs else none

/-- Length of the maximal prefix run of characters in class `c`. -/
def runLen (c : CClass) (s : List Char) : Nat :=
  (s.takeWhile c.mem).length

/-- Greedy alternatives of a starred class: drop `k, k-1, …, 0` characters,
longest first (Python's greedy `*` backtracking order). -/
def starAlts (k : Nat) (s : List Char) : List (List Char) :=
  (List.range (k + 1)).reverse.map (fun i => s.drop i)

/-- Captured groups of one match alternative: group number ↦ captured text. -/
abbrev Caps := List (Nat × List Char)

/-- All match alternatives of `r` against a prefix of `s`, in Python's
backtracking priority order (first element = the match Python commits to).
Each alternative is its captures paired with the unconsumed rest. -/
def mall : RE → List Char → List (Caps × List Char)
  | .eps, s => [([], s)]
  | .lit ci l, s =>
    match litMatch ci l s with
    | some r => [([], r)]
    | none => []
  | .one c, s =>
    match s with
    | [] => []
    | x :: xs => if c.mem x then [([], xs)] else []
  | .star c, s => (starAlts (runLen c s) s).map (fun r => ([], r))
  | .plus c, s =>
    ((List.range (runLen c s)).reverse.map (fun i => s.drop (i + 1))).map
      (fun r => ([], r))
  | .opt r, s => mall r s ++ [([], s)]
  | .alt a b, s => mall a s ++ mall b s
  | .cat a b, s =>
    (mall a s).flatMap (fun p => (mall b p.2).map (fun q => (p.1 ++ q.1, q.2)))
  | .grp i r, s =>
    (mall r s).map (fun p => ((i, s.take (s.length - p.2.length)) :: p.1, p.2))

/-- Result of a successful search: the overall matched text (Python group 0)
and the capture groups. -/
structure MRes where
  m0 : List Char
  caps : Caps
deriving DecidableEq

/-- `re.search`: try each start offset left to right, committing to the
highest-priority alternative at the first offset that matches at all.
(The fuel argument is a structural-recursion device; the wrapper below
always supplies enough, so it never runs out.) -/
def searchFromAux (r : RE) : Nat → List Char → Option MRes
  | 0, _ => none
  | _ + 1, s =>
    match mall r s with
    | (c, rest) :: _ => some ⟨s.take (s.length - rest.length), c⟩
    | [] =>
      match s with
      | [] => none
      | _ :: xs => searchFromAux r xs.length.succ xs

def searchFrom (r : RE) (s : List Char) : Option MRes :=
  searchFromAux r s.length.succ s

/-- One-step unfolding of `searchFrom`. -/
theorem searchFrom_eq (r : RE) (s : List Char) :
    searchFrom r s = match mall r s with
      | (c, rest) :: _ => some ⟨s.take (s.length - rest.length), c⟩
      | [] =>
        match s with
        | [] => none
        | _ :: xs => searchFrom r xs := by
  cases s <;> simp only [searchFrom, searchFromAux, List.length_cons,
    Nat.succ_eq_add_one]

/-- Drop through the first newline; `none` if there is none.  Used to
enumerate the `re.MULTILINE` line-start anchor positions. -/
def afterNL : List Char → Option (List Char)
  | [] => none
  | c :: cs => if c = '\n' then some cs else afterNL cs

theorem afterNL_length : ∀ {s t : List Char}, afterNL s = some t → t.length < s.length := by
  intro s
  induction s with
  | nil => intro t h; simp [afterNL] at h
  | cons c cs ih =>
    intro t h
    simp only [afterNL] at h
    by_cases hc : c = '\n'
    · rw [if_pos hc] at h
      cases h
      simp
    · simp only [hc, if_neg hc] at h
      have := ih h
      simp only [List.length_cons]
      omega

/-- `re.search` of a pattern beginning with a `re.MULTILINE` `^` anchor:
only the string start and positions just after a newline are candidate
offsets, tried left to right.  (Fuel as in `searchFromAux`.) -/
def searchMLAux (r : RE) : Nat → List Char → Option MRes
  | 0, _ => none
  | fuel + 1, s =>
    match mall r s with
    | (c, rest) :: _ => some ⟨s.take (s.length - rest.length), c⟩
    | [] =>
      match afterNL s with
      | some t => searchMLAux r fuel t
      | none => none

def searchML (r : RE) (s : List Char) : Option MRes :=
  searchMLAux r s.length.succ s

/-- The fuel is irrelevant as long as it exceeds the input length. -/
theorem searchMLAux_fuel (r : RE) :
    ∀ (f₁ f₂ : Nat) (s : List Char), s.length < f₁ → s.length < f₂ →
      searchMLAux r f₁ s = searchMLAux r f₂ s := by
  intro f₁
  induction f₁ with
  | zero => intro f₂ s h1; omega
  | succ f ih =>
    intro f₂ s h1 h2
    cases f₂ with
    | zero => omega
    | succ g =>
      simp only [searchMLAux]
      cases mall r s with
      | cons a t => rfl
      | nil =>
        cases hnl : afterNL s with
        | none => rfl
        | some t =>
          have ht := afterNL_length hnl
          exact ih g t (by omega) (by omega)

/-- One-step unfolding of `searchML`. -/
theorem searchML_eq (r : RE) (s : List Char) :
    searchML r s = match mall r s with
      | (c, rest) :: _ => some ⟨s.take (s.length - rest.length), c⟩
      | [] =>
        match afterNL s with
        | some t => searchML r t
        | none => none := by
  show searchMLAux r s.length.succ s = _
  simp only [searchMLAux]
  cases mall r s with
  | cons a t => rfl
  | nil =>
    cases hnl : afterNL s with
    | none => rfl
    | some t =>
      have ht := afterNL_length hnl
      exact searchMLAux_fuel r s.length t.length.succ t (by omega) (by omega)

/-- `re.match`: anchored at the very start of the string. -/
def matchHead (r : RE) (s : List Char) : Option MRes :=
  match mall r s with
  | (c, rest) :: _ => some ⟨s.take (s.length - rest.length), c⟩
  | [] => none

/-- First capture of group `i` in a capture list. -/
def capLookup (i : Nat) (c : Caps) : Option (List Char) :=
  (c.find? (fun p => p.1 = i)).map (fun p => p.2)

/-- Value of a digit string (`int(...)` on a `[0-9]+` capture). -/
def digitsToNat (l : List Char) : Nat :=
  l.foldl (fun a c => a * 10 + (c.toNat - '0'.toNat)) 0

/-- Value of a `[0-9]+(\.[0-9]+)?` capture (`float(...)` on it), as an exact
rational. -/
def decToQ (l : List Char) : ℚ :=
  let ip := l.takeWhile (fun c => c ≠ '.')
  let rest := l.dropWhile (fun c => c ≠ '.')
  match rest with
  | [] => (digitsToNat ip : ℚ)
  | _ :: fp => (digitsToNat ip : ℚ) + (digitsToNat fp : ℚ) / (10 ^ fp.length)

/-- Sequence a list of regexes (concatenation of the pattern pieces). -/
def reSeq : List RE → RE
  | [] => .eps
  | [r] => r
  | r :: rs => .cat r (reSeq rs)

def reStr (s : String) : RE := .lit false s.toList
def reStrCI (s : String) : RE := .lit true s.toList

/-- `([0-9]+(?:\.[0-9]+)?)` as capture group `i`. -/
def numGrp (i : Nat) : RE :=
  .grp i (.cat (.plus .digit) (.opt (.cat (reStr ".") (.plus .digit))))

/-- Python `str.strip()` (ASCII whitespace). -/
def pyStrip (s : List Char) : List Char :=
  ((s.dropWhile isPySpace).reverse.dropWhile isPySpace).reverse

/-- Python `float(...)` on a stripped string, modelled over `ℚ` for the
finite decimal/exponent forms: optional sign, digits with optional fraction,
optional exponent.  (`inf`/`nan` literals and underscore separators are
outside the rational model; no log value takes those shapes.) -/
def pyFloat : List Char → Option ℚ := fun s =>
  let core : List Char → Option ℚ := fun t =>
    let ip := t.takeWhile Char.isDigit
    let t1 := t.dropWhile Char.isDigit
    let (fp, t2) :=
      match t1 with
      | '.' :: u => (u.takeWhile Char.isDigit, u.dropWhile Char.isDigit)
      | _ => ([], t1)
    if ip.length + fp.length = 0 then none
    else
      let mant : ℚ := (digitsToNat ip : ℚ) + (digitsToNat fp : ℚ) / (10 ^ fp.length)
      match t2 with
      | [] => some mant
      | 'e' :: u | 'E' :: u =>
        let (sgn, u1) :=
          match u with
          | '-' :: v => ((-1 : ℤ), v)
          | '+' :: v => ((1 : ℤ), v)
          | _ => ((1 : ℤ), u)
        let ed := u1.takeWhile Char.isDigit
        if ed.length = 0 ∨ (u1.dropWhile Char.isDigit).length ≠ 0 then none
        else some (mant * (10 : ℚ) ^ (sgn * digitsToNat ed))
      | _ => none
  let s := pyStrip s
  match s with
  | '-' :: t => (core t).map Neg.neg
  | '+' :: t => core t
  | t => core t

/-- `(ms|s|us)` with `re.IGNORECASE` when `ci`. -/
def unitAlt (ci : Bool) : RE :=
  .alt (.lit ci "ms".toList) (.alt (.lit ci "s".toList) (.lit ci "us".toList))

/-- The `re.match` pattern of `convert_to_seconds`:
`([0-9]+(?:\.[0-9]+)?)\s*(ms|s|us)?`. -/
def convPat (ci : Bool) : RE :=
  reSeq [numGrp 1, .star .pyspace, .opt (.grp 2 (unitAlt ci))]

/-- Shared body of both `convert_to_seconds` variants after the
string-preprocessing step: match the anchored pattern, pick the unit
(defaulting to `'s'`), divide accordingly; on no match fall back to a plain
float parse. `lowered` tells whether the unit capture still needs
`.lower()` (richer variant lowercases the whole input instead). -/
def convertCore (ci : Bool) (toLow : Bool) (s : List Char) : Option ℚ :=
  match matchHead (convPat ci) s with
  | none => pyFloat s
  | some m =>
    let val : ℚ := (capLookup 1 m.caps).elim 0 decToQ
    let unit : List Char :=
      match capLookup 2 m.caps with
      | some u => if toLow then u.map Char.toLower else u
      | none => "s".toList
    if unit = "ms".toList then some (val / 1000)
    else if unit = "us".toList then some (val / 1000000)
    else some val

/-- `convert_to_seconds` of `analyze_results.py` (simpler variant):
strip, match with `re.IGNORECASE`, lowercase the captured unit. -/
def convert_to_seconds₁ (s : List Char) : Option ℚ :=
  convertCore true true (pyStrip s)

/-- `convert_to_seconds` of `analyze_results_report.py` (richer variant):
strip and lowercase the whole input, match case-sensitively. -/
def convert_to_seconds₂ (s : List Char) : Option ℚ :=
  convertCore false false ((pyStrip s).map Char.toLower)

/-! ### CPU-log parsing -/

/-- `round(x, 2)` on the exact rational: Python rounds half to even. -/
def roundHalfEven (x : ℚ) : ℤ :=
  let f := ⌊x⌋
  let d := x - (f : ℚ)
  if d < 1 / 2 then f
  else if d > 1 / 2 then f + 1
  else if f % 2 = 0 then f else f + 1

def round2 (x : ℚ) : ℚ := (roundHalfEven (x * 100) : ℚ) / 100

/-- A parsed CPU metric record. -/
structure CpuMetric where
  busy : Option ℚ
  idle : Option ℚ
  samples : Option ℕ
deriving DecidableEq

/-- Pattern 1 (richest), identical in both variants, compiled with
`re.IGNORECASE | re.DOTALL`:
`AVG busy.*=\s*([0-9]+(?:\.[0-9]+)?)\s*%.*avg idle\s*=\s*([0-9]+(?:\.[0-9]+)?)\s*%.*over\s*([0-9]+)\s*samples` -/
def patAvgRich : RE :=
  reSeq [reStrCI "AVG busy", .star .any, reStrCI "=", .star .pyspace, numGrp 1,
    .star .pyspace, reStrCI "%", .star .any, reStrCI "avg idle", .star .pyspace,
    reStrCI "=", .star .pyspace, numGrp 2, .star .pyspace, reStrCI "%",
    .star .any, reStrCI "over", .star .pyspace, .grp 3 (.plus .digit),
    .star .pyspace, reStrCI "samples"]

/-- Pattern 2 (no idle clause):
`AVG busy.*=\s*([0-9]+(?:\.[0-9]+)?)\s*%.*over\s*([0-9]+)\s*samples`.
The simpler variant compiles it with `re.DOTALL` (`.` = any), the richer one
without (`.` = `[^\n]`); the `dot` argument selects the class. -/
def patAvgMid (dot : CClass) : RE :=
  reSeq [reStrCI "AVG busy", .star dot, reStrCI "=", .star .pyspace, numGrp 1,
    .star .pyspace, reStrCI "%", .star dot, reStrCI "over", .star .pyspace,
    .grp 2 (.plus .digit), .star .pyspace, reStrCI "samples"]

/-- Pattern 3 (busy only): `AVG busy.*=\s*([0-9]+(?:\.[0-9]+)?)\s*%`. -/
def patAvgMin (dot : CClass) : RE :=
  reSeq [reStrCI "AVG busy", .star dot, reStrCI "=", .star .pyspace, numGrp 1,
    .star .pyspace, reStrCI "%"]

/-- Idle fallback: `avg idle\s*=\s*([0-9]+(?:\.[0-9]+)?)\s*%`
(`re.IGNORECASE`, both variants). -/
def patAvgIdle : RE :=
  reSeq [reStrCI "avg idle", .star .pyspace, reStrCI "=", .star .pyspace,
    numGrp 1, .star .pyspace, reStrCI "%"]

/-- `parse_avg_cpu_file` of `analyze_results.py`: try the three busy
patterns (all compiled `re.IGNORECASE | re.DOTALL`) then the idle fallback,
which leaves `busy` absent. -/
def parse_avg_cpu_file₁ (text : List Char) : Option CpuMetric :=
  match searchFrom patAvgRich text with
  | some m =>
    some ⟨(capLookup 1 m.caps).map decToQ, (capLookup 2 m.caps).map decToQ,
      (capLookup 3 m.caps).map digitsToNat⟩
  | none =>
    match searchFrom (patAvgMid .any) text with
    | some m =>
      some ⟨(capLookup 1 m.caps).map decToQ, none,
        (capLookup 2 m.caps).map digitsToNat⟩
    | none =>
      match searchFrom (patAvgMin .any) text with
      | some m => some ⟨(capLookup 1 m.caps).map decToQ, none, none⟩
      | none =>
        match searchFrom patAvgIdle text with
        | some m => some ⟨none, (capLookup 1 m.caps).map decToQ, none⟩
        | none => none

/-- `parse_avg_cpu_file` of `analyze_results_report.py`: same cascade except
patterns 2 and 3 lack `re.DOTALL`, and the idle fallback derives
`busy = round(100 - idle, 2)`. -/
def parse_avg_cpu_file₂ (text : List Char) : Option CpuMetric :=
  match searchFrom patAvgRich text with
  | some m =>
    some ⟨(capLookup 1 m.caps).map decToQ, (capLookup 2 m.caps).map decToQ,
      (capLookup 3 m.caps).map digitsToNat⟩
  | none =>
    match searchFrom (patAvgMid .nonnl) text with
    | some m =>
      some ⟨(capLookup 1 m.caps).map decToQ, none,
        (capLookup 2 m.caps).map digitsToNat⟩
    | none =>
      match searchFrom (patAvgMin .nonnl) text with
      | some m => some ⟨(capLookup 1 m.caps).map decToQ, none, none⟩
      | none =>
        match searchFrom patAvgIdle text with
        | some m =>
          let idle := (capLookup 1 m.caps).elim 0 decToQ
          some ⟨some (round2 (100 - idle)), some idle, none⟩
        | none => none

/-! ### Load-test (wrk) log parsing -/

/-- The duration token captured by the percentile patterns:
`[0-9]+(?:\.[0-9]+)?\s*(?:ms|s|us)?` (unit left inside the capture; the
captured text is later fed to `convert_to_seconds`). -/
def durTok : RE :=
  reSeq [.plus .digit, .opt (.cat (reStr ".") (.plus .digit)),
    .star .pyspace, .opt (unitAlt true)]

/-- `Requests/sec:\s*([0-9]+(?:\.[0-9]+)?)` (case-sensitive). -/
def patReq : RE := reSeq [reStr "Requests/sec:", .star .pyspace, numGrp 1]

/-- Per-line percentile pattern body after the `re.MULTILINE` `^` anchor:
`\s*<perc>%\s+([0-9]+(?:\.[0-9]+)?\s*(?:ms|s|us)?)` with `re.IGNORECASE`. -/
def patPerLine (perc : String) : RE :=
  reSeq [.star .pyspace, reStrCI (perc ++ "%"), .plus .pyspace, .grp 1 durTok]

/-- The combined inline trio pattern (`re.IGNORECASE`):
`50%[^\d]*(tok)[^\n]*75%[^\d]*(tok)[^\n]*90%[^\d]*(tok)`. -/
def patInline : RE :=
  reSeq [reStrCI "50%", .star .nondigit, .grp 1 durTok, .star .nonnl,
    reStrCI "75%", .star .nondigit, .grp 2 durTok, .star .nonnl,
    reStrCI "90%", .star .nondigit, .grp 3 durTok]

/-- `99%[^\d]*(tok)` (`re.IGNORECASE`). -/
def patP99 : RE := reSeq [reStrCI "99%", .star .nondigit, .grp 1 durTok]

/-- Simpler variant: `Socket errors:[^\n]*`, whole match kept (group 0). -/
def patSocket₁ : RE := reSeq [reStr "Socket errors:", .star .nonnl]

/-- Richer variant: `Socket errors:\s*([^\n]+)` (case-sensitive). -/
def patSocket₂ : RE :=
  reSeq [reStr "Socket errors:", .star .pyspace, .grp 1 (.plus .nonnl)]

/-- Richer variant: `Transfer/sec:\s*([0-9]+(?:\.[0-9]+)?)(\w+)?`. -/
def patTransfer : RE :=
  reSeq [reStr "Transfer/sec:", .star .pyspace, numGrp 1,
    .opt (.grp 2 (.plus .word))]

/-- Per-line percentile value: the `re.MULTILINE` search, its capture passed
through the given `convert_to_seconds`; absent when the line is not found. -/
def perLineVal (conv : List Char → Option ℚ) (perc : String)
    (text : List Char) : Option ℚ :=
  match searchML (patPerLine perc) text with
  | some m => (capLookup 1 m.caps).bind conv
  | none => none

/-- `parse_wrk_file` result, simpler variant (`analyze_results.py`). -/
structure WrkRes₁ where
  requests_per_sec : Option ℚ
  p50 : Option ℚ
  p75 : Option ℚ
  p90 : Option ℚ
  p99 : Option ℚ
  raw_errors : Option (List Char)
deriving DecidableEq

/-- `parse_wrk_file` of `analyze_results.py`: requests/sec, the per-line
percentile loop, then the inline trio fallback (overwriting p50/p75/p90
whenever it matches), then the independent 99% search (overwriting p99
whenever it matches), then the socket-errors line (whole match, stripped). -/
def parse_wrk_file₁ (text : List Char) : WrkRes₁ :=
  let req :=
    match searchFrom patReq text with
    | some m => (capLookup 1 m.caps).map decToQ
    | none => none
  let pl50 := perLineVal convert_to_seconds₁ "50" text
  let pl75 := perLineVal convert_to_seconds₁ "75" text
  let pl90 := perLineVal convert_to_seconds₁ "90" text
  let pl99 := perLineVal convert_to_seconds₁ "99" text
  let (p50, p75, p90) :=
    match searchFrom patInline text with
    | some m =>
      ((capLookup 1 m.caps).bind convert_to_seconds₁,
       (capLookup 2 m.caps).bind convert_to_seconds₁,
       (capLookup 3 m.caps).bind convert_to_seconds₁)
    | none => (pl50, pl75, pl90)
  let p99 :=
    match searchFrom patP99 text with
    | some m => (capLookup 1 m.caps).bind convert_to_seconds₁
    | none => pl99
  let raw :=
    match searchFrom patSocket₁ text with
    | some m => some (pyStrip m.m0)
    | none => none
  ⟨req, p50, p75, p90, p99, raw⟩

/-- `parse_wrk_file` result, richer variant (`analyze_results_report.py`). -/
structure WrkRes₂ where
  requests_per_sec : Option ℚ
  p50 : Option ℚ
  p75 : Option ℚ
  p90 : Option ℚ
  p99 : Option ℚ
  socket_errors : Option (List Char)
  transfer_per_sec : Option ℚ
deriving DecidableEq

/-- `parse_wrk_file` of `analyze_results_report.py`: adds the Transfer/sec
field (kb/k kept, mb/m scaled by 1024, other units passed through) and keeps
the stripped capture after `Socket errors:`. -/
def parse_wrk_file₂ (text : List Char) : WrkRes₂ :=
  let req :=
    match searchFrom patReq text with
    | some m => (capLookup 1 m.caps).map decToQ
    | none => none
  let transfer :=
    match searchFrom patTransfer text with
    | some m =>
      let val := (capLookup 1 m.caps).elim 0 decToQ
      let unit := ((capLookup 2 m.caps).getD []).map Char.toLower
      if unit = "kb".toList ∨ unit = "k".toList then some val
      else if unit = "mb".toList ∨ unit = "m".toList then some (val * 1024)
      else some val
    | none => none
  let pl50 := perLineVal convert_to_seconds₂ "50" text
  let pl75 := perLineVal convert_to_seconds₂ "75" text
  let pl90 := perLineVal convert_to_seconds₂ "90" text
  let pl99 := perLineVal convert_to_seconds₂ "99" text
  let (p50, p75, p90) :=
    match searchFrom patInline text with
    | some m =>
      ((capLookup 1 m.caps).bind convert_to_seconds₂,
       (capLookup 2 m.caps).bind convert_to_seconds₂,
       (capLookup 3 m.caps).bind convert_to_seconds₂)
    | none => (pl50, pl75, pl90)
  let p99 :=
    match searchFrom patP99 text with
    | some m => (capLookup 1 m.caps).bind convert_to_seconds₂
    | none => pl99
  let sock :=
    match searchFrom patSocket₂ text with
    | some m => (capLookup 1 m.caps).map pyStrip
    | none => none
  ⟨req, p50, p75, p90, p99, sock, transfer⟩

/-! ### Directory model and candidate-file selection -/

/-- One entry of a run directory (`run_dir.iterdir()`): a name, whether it is
a regular file, and (for files) its text content as read by
`Path.read_text(errors='ignore')`. -/
structure FileEnt where
  name : String
  isFile : Bool
  content : String
deriving DecidableEq

/-- A run directory inside a scenario directory. -/
structure RunDir where
  name : String
  isDir : Bool
  entries : List FileEnt
deriving DecidableEq

/-- A scenario directory inside the root. -/
structure ScenDir where
  name : String
  isDir : Bool
  runs : List RunDir
deriving DecidableEq

/-- `p` occurs as a substring (Python `in` on strings). -/
def containsSub (p : List Char) : List Char → Bool := fun s =>
  (litMatch false p s).isSome ||
    match s with
    | [] => false
    | _ :: xs => containsSub p xs

/-- Python `str.startswith`. -/
def strStarts (p s : List Char) : Bool := (litMatch false p s).isSome

def lowerL (s : String) : List Char := s.toList.map Char.toLower

/-- `pathlib.Path.suffix`: the final `.ext` of the name, empty for names with
no dot, a leading dot only, or a trailing dot (CPython: the last `'.'` at
index `i` counts only if `0 < i < len - 1`). -/
def pathSuffix (n : List Char) : List Char :=
  match (List.range n.length).reverse.find? (fun i => (n.drop i).head? = some '.') with
  | some i => if 0 < i ∧ i < n.length - 1 then n.drop i else []
  | none => []

/-- Simpler variant's wrk-file test:
`f.is_file() and 'wrk' in f.name and f.suffix in ('.txt', '.log')`
(note: the substring test is case-sensitive here). -/
def wrkPred₁ (f : FileEnt) : Bool :=
  f.isFile && containsSub "wrk".toList f.name.toList &&
    (pathSuffix f.name.toList = ".txt".toList ||
     pathSuffix f.name.toList = ".log".toList)

/-- Richer variant's wrk-file test: `f.is_file() and 'wrk' in f.name.lower()`. -/
def wrkPred₂ (f : FileEnt) : Bool :=
  f.isFile && containsSub "wrk".toList (lowerL f.name)

/-- The wrk-selection loop of both variants: first match wins (`break`). -/
def findFirst (p : FileEnt → Bool) : List FileEnt → Option FileEnt
  | [] => none
  | f :: fs => if p f then some f else findFirst p fs

/-- A scan loop without `break`: each match overwrites the slot, so the last
match wins (initial slot value `acc`). -/
def loopLast (p : FileEnt → Bool) (acc : Option FileEnt) :
    List FileEnt → Option FileEnt
  | [] => acc
  | f :: fs => loopLast p (if p f then some f else acc) fs

/-- Simpler variant, CPU slot for role `role` (`"ips"` or `"waf"`): one
no-break loop over `avg_cpu_<role>` prefixes, then a second no-break loop over
`summary_<role>` prefixes that overwrites the slot if it matches. -/
def avgSel₁ (role : String) (files : List FileEnt) : Option FileEnt :=
  let byAvg := loopLast
    (fun f => f.isFile && strStarts ("avg_cpu_" ++ role).toList (lowerL f.name))
    none files
  loopLast
    (fun f => f.isFile && strStarts ("summary_" ++ role).toList (lowerL f.name))
    byAvg files

/-- Richer variant, CPU slot: a single no-break loop testing
`'avg_cpu_<role>' in n or 'summary_<role>' in n` on the lowercased name
(substring, not prefix; no `is_file()` test). -/
def avgSel₂ (role : String) (files : List FileEnt) : Option FileEnt :=
  loopLast
    (fun f => containsSub ("avg_cpu_" ++ role).toList (lowerL f.name) ||
      containsSub ("summary_" ++ role).toList (lowerL f.name))
    none files

/-! ### Concurrency detection -/

theorem dropWhileLenLe (p : Char → Bool) (l : List Char) :
    (l.dropWhile p).length ≤ l.length := by
  induction l with
  | nil => simp [List.dropWhile]
  | cons c cs ih =>
    simp only [List.dropWhile]
    by_cases hc : p c
    · simp only [hc]
      simp only [List.length_cons]
      omega
    · simp [hc]

/-- First match of `(?<!\d)(\d{2,5})(?!\d)`, as a value: the lookarounds make
a match possible exactly at the start of a maximal digit run, and the
greedy-with-lookahead core accepts exactly the runs of length 2–5 whole
(runs of length 1 are too short, runs of length ≥ 6 fail the trailing
`(?!\d)` for every quantifier choice), so the search yields the first maximal
digit run of length 2–5. -/
def stand25Aux : Nat → List Char → Option Nat
  | 0, _ => none
  | fuel + 1, s =>
    match s with
    | [] => none
    | c :: cs =>
      if c.isDigit then
        let r := (c :: cs).takeWhile Char.isDigit
        if 2 ≤ r.length ∧ r.length ≤ 5 then some (digitsToNat r)
        else stand25Aux fuel (cs.dropWhile Char.isDigit)
      else stand25Aux fuel cs

def stand25 (s : List Char) : Option Nat := stand25Aux s.length.succ s


/-- First match of `(\d{2,5})`, as a value: the first position with at least
two consecutive digits, capturing greedily up to five. -/
def firstD25Aux : Nat → List Char → Option Nat
  | 0, _ => none
  | fuel + 1, s =>
    match s with
    | [] => none
    | c :: cs =>
      if c.isDigit then
        let r := (c :: cs).takeWhile Char.isDigit
        if 2 ≤ r.length then some (digitsToNat (r.take 5))
        else firstD25Aux fuel (cs.dropWhile Char.isDigit)
      else firstD25Aux fuel cs

def firstD25 (s : List Char) : Option Nat := firstD25Aux s.length.succ s


/-- First match of `c(\d+)`, as a value: the first `'c'` (case-sensitive)
followed by at least one digit, capturing the maximal digit run. -/
def cNum : List Char → Option Nat
  | [] => none
  | c :: cs =>
    if c = 'c' then
      let r := cs.takeWhile Char.isDigit
      if 1 ≤ r.length then some (digitsToNat r) else cNum cs
    else cNum cs

/-- Simpler variant's acceptance test:
`num in (50,100,200,300,500,1000,2000,4000) or num >= 100`. -/
def accept₁ (n : Nat) : Bool :=
  n = 50 || n = 100 || n = 200 || n = 300 || n = 500 || n = 1000 ||
    n = 2000 || n = 4000 || 100 ≤ n

/-- Richer variant's acceptance test:
`num in (50,100,200,300,500,1000,2000) or num > 100`. -/
def accept₂ (n : Nat) : Bool :=
  n = 50 || n = 100 || n = 200 || n = 300 || n = 500 || n = 1000 ||
    n = 2000 || 100 < n

/-- The filename scan shared by both variants: for each entry in directory
order, find the first standalone 2–5 digit number in its name; if there is
one and it passes `accept`, commit to it (`break`); otherwise move to the
next entry. -/
def scanConc (accept : Nat → Bool) : List FileEnt → Option Nat
  | [] => none
  | f :: fs =>
    match stand25 f.name.toList with
    | some num => if accept num then some num else scanConc accept fs
    | none => scanConc accept fs

/-- Simpler variant's concurrency cascade: the filename scan, then a
`(\d{2,5})` search on the CPU (ips) filename, then a `c(\d+)` search on the
wrk filename. -/
def concurrency₁ (files : List FileEnt) (avg_ips wrk : Option FileEnt) :
    Option Nat :=
  let c0 := scanConc accept₁ files
  let c1 :=
    match c0 with
    | some n => some n
    | none =>
      match avg_ips with
      | some a => firstD25 a.name.toList
      | none => none
  match c1 with
  | some n => some n
  | none =>
    match wrk with
    | some w => cNum w.name.toList
    | none => none

/-- Richer variant's concurrency cascade: the filename scan, then only the
`c(\d+)` search on the wrk filename (no CPU-filename fallback). -/
def concurrency₂ (files : List FileEnt) (wrk : Option FileEnt) : Option Nat :=
  match scanConc accept₂ files with
  | some n => some n
  | none =>
    match wrk with
    | some w => cNum w.name.toList
    | none => none

/-! ### Row assembly, simpler variant (`analyze_results.py`) -/

/-- One table row of the simpler variant's `collect_results`. -/
structure Row₁ where
  scenario : String
  run : String
  concurrency : Option Nat
  path : String
  avg_busy_ips : Option ℚ
  avg_idle_ips : Option ℚ
  avg_busy_waf : Option ℚ
  avg_idle_waf : Option ℚ
  samples_ips : Option Nat
  samples_waf : Option Nat
  requests_per_sec : Option ℚ
  p50 : Option ℚ
  p75 : Option ℚ
  p90 : Option ℚ
  p99 : Option ℚ
  raw_errors : Option (List Char)
deriving DecidableEq

/-- Simpler variant, one CPU slot of the per-run loop.  Its selection loops
test `f.is_file()`, so the selected entry is always a readable regular file
and the slot is total: parse it, recording the unparsable path or the
`AVG_CPU_<role>_*.txt` expectation as the missing entry. -/
def cpuSlotOut₁ (runPath role : String) (files : List FileEnt) :
    (Option ℚ × Option ℚ × Option Nat) × List String :=
  match avgSel₁ role files with
  | some a =>
    match parse_avg_cpu_file₁ a.content.toList with
    | some p => ((p.busy, p.idle, p.samples), [])
    | none => ((none, none, none), [runPath ++ "/" ++ a.name])
  | none => ((none, none, none), [runPath ++ "/AVG_CPU_" ++ role ++ "_*.txt"])

/-- Simpler variant, body of the per-run-directory loop of
`collect_results`. -/
def processRun₁ (runPath scenario runname : String) (files : List FileEnt) :
    Row₁ × List String :=
  let wrk := findFirst wrkPred₁ files
  let avgIps := cpuSlotOut₁ runPath "ips" files
  let avgWaf := cpuSlotOut₁ runPath "waf" files
  let conc := concurrency₁ files (avgSel₁ "ips" files) wrk
  let (req, v50, v75, v90, v99, raw, missWrk) :=
    match wrk with
    | some w =>
      let r := parse_wrk_file₁ w.content.toList
      (r.requests_per_sec, r.p50, r.p75, r.p90, r.p99, r.raw_errors,
        ([] : List String))
    | none =>
      (none, none, none, none, none, none, [runPath ++ "/*wrk*.txt"])
  (⟨scenario, runname, conc, runPath,
    avgIps.1.1, avgIps.1.2.1, avgWaf.1.1, avgWaf.1.2.1,
    avgIps.1.2.2, avgWaf.1.2.2,
    req, v50, v75, v90, v99, raw⟩,
   avgIps.2 ++ avgWaf.2 ++ missWrk)

def runOut₁ (rootPath : String) (sd : ScenDir) (rd : RunDir) :
    Row₁ × List String :=
  processRun₁ (rootPath ++ "/" ++ sd.name ++ "/" ++ rd.name) sd.name
    rd.name rd.entries

def scenOut₁ (rootPath : String) (sd : ScenDir) : List (Row₁ × List String) :=
  ((sd.runs.mergeSort (fun a b => a.name ≤ b.name)).filter
    (fun r => r.isDir)).map (runOut₁ rootPath sd)

/-- `collect_results` of `analyze_results.py`: total — every file it reads
passed an `is_file()` test. -/
def collect_results₁ (rootPath : String) (root : List ScenDir) :
    List Row₁ × List String :=
  let outs := ((root.mergeSort (fun a b => a.name ≤ b.name)).filter
    (fun s => s.isDir)).flatMap (scenOut₁ rootPath)
  (outs.map Prod.fst, outs.flatMap Prod.snd)

/-! ### Scenario catalog and row assembly (richer variant) -/

def SCENARIO_DESCRIPTIONS : List (String × String) := [
  ("INJ_IPS_WAF_WEB", "Injector → IPS (Suricata) actif → WAF (proxy Apache avec ModSecurity) actif → Backend web. Test complet avec IDS/IPS et WAF inline."),
  ("INJ_IPS_WEB_NO_PROXY", "Injector → IPS actif → connexion directe vers le Backend (pas de proxy WAF). Permet mesurer l'impact de l'IPS seul."),
  ("INJ_IPS_WEB_PROXY", "Injector → IPS actif → WAF machine en mode proxy (sans ModSecurity activé) → Backend. Mesure l'overhead du proxy seul avec IPS."),
  ("INJ_NFQ_WAF_WEB", "Injector → NFQUEUE présent mais Suricata pas en mode bloquant (ou acceptant) → WAF actif → Backend. Test du cas où NFQUEUE est installé mais trafic accepté."),
  ("INJ_WAF_WEB", "Injector → Pas d'IPS → WAF (proxy + ModSecurity) actif → Backend. Mesure l'impact du WAF seul."),
  ("INJ_WEB", "Injector → Pas d'IPS → Pas de proxy (accès direct au Backend). Mesures baseline sans WAF ni proxy ni IPS."),
  ("INJ_WEB_PROXY", "Injector → Pas d'IPS → Proxy (WAF machine en tant que reverse-proxy, ModSecurity désactivé) → Backend. Test proxy sans fonctionnalités WAF."),
  ("NO INJECTION", "Tests sans trafic d'injection (contrôles ou mesures à vide).")]

/-- `describe_scenario`: catalog hit first, otherwise synthesize from the
underscore tokens of the name. -/
def describe_scenario (name : String) : String :=
  match SCENARIO_DESCRIPTIONS.find? (fun p => p.1 = name) with
  | some p => p.2
  | none =>
    let parts := name.splitOn "_"
    let desc : List String :=
      (if parts.contains "INJ" || name.startsWith "INJ" then
        ["Injection depuis Injector"] else []) ++
      (if parts.contains "IPS" then ["IPS (Suricata) actif"] else []) ++
      (if parts.contains "NFQ" then ["NFQUEUE présent"] else []) ++
      (if parts.contains "WAF" then ["WAF (proxy / ModSecurity) actif"] else []) ++
      (if parts.contains "WEB" || parts.contains "BACKEND" then
        ["Backend web présent"] else []) ++
      (if parts.contains "PROXY" || parts.contains "NO_PROXY" ||
          parts.contains "NO" then
        (if parts.contains "NO" || parts.contains "NO_PROXY" then
          ["accès direct au backend (pas de proxy)"]
        else ["reverse-proxy en place"]) else [])
    if desc = [] then "Scénario non documenté — nom brut: " ++ name
    else String.intercalate " — " desc

/-- One table row of the richer variant's `collect_results`. -/
structure Row where
  scenario : String
  scenario_desc : String
  run : String
  concurrency : Option Nat
  path : String
  avg_busy_ips : Option ℚ
  avg_idle_ips : Option ℚ
  samples_ips : Option Nat
  avg_busy_waf : Option ℚ
  avg_idle_waf : Option ℚ
  samples_waf : Option Nat
  requests_per_sec : Option ℚ
  p50 : Option ℚ
  p75 : Option ℚ
  p90 : Option ℚ
  p99 : Option ℚ
  socket_errors : Option (List Char)
  transfer_per_sec : Option ℚ
  wrk_file : Option String
deriving DecidableEq

/-- Richer variant, one CPU slot of the per-run loop.  The selection loop
tests only the lowercased NAME — no `is_file()` — so a directory whose name
matches is selected too; `exists()` holds for it, and `Path.read_text` then
raises `IsADirectoryError`, which no caller catches: the exception is
modelled as `.error ()`.  On a selected regular file: parse it, recording
the unparsable file's full path, or the `AVG_CPU_<role>_*.txt` expectation
when nothing was selected. -/
def cpuSlotOut (runPath role : String) (files : List FileEnt) :
    Except Unit ((Option ℚ × Option ℚ × Option Nat) × List String) :=
  match avgSel₂ role files with
  | some a =>
    if a.isFile then
      match parse_avg_cpu_file₂ a.content.toList with
      | some p => .ok ((p.busy, p.idle, p.samples), [])
      | none => .ok ((none, none, none), [runPath ++ "/" ++ a.name])
    else .error ()
  | none => .ok ((none, none, none), [runPath ++ "/AVG_CPU_" ++ role ++ "_*.txt"])

/-- The value `cpuSlotOut` produces on its exception-free path (used to name
the slot contents in the theorems below). -/
def cpuSlotVal (runPath role : String) (files : List FileEnt) :
    (Option ℚ × Option ℚ × Option Nat) × List String :=
  match avgSel₂ role files with
  | some a =>
    match parse_avg_cpu_file₂ a.content.toList with
    | some p => ((p.busy, p.idle, p.samples), [])
    | none => ((none, none, none), [runPath ++ "/" ++ a.name])
  | none => ((none, none, none), [runPath ++ "/AVG_CPU_" ++ role ++ "_*.txt"])

/-- Richer variant, body of the per-run-directory loop of `collect_results`:
select the candidate files, derive concurrency, parse, and produce the row
together with the `missing` entries this run appends (ips slot first, then
waf, then wrk, as in the source); an `IsADirectoryError` in either CPU slot
propagates. -/
def processRun₂ (runPath scenario scenario_desc runname : String)
    (files : List FileEnt) : Except Unit (Row × List String) :=
  let wrk := findFirst wrkPred₂ files
  match cpuSlotOut runPath "ips" files with
  | .error e => .error e
  | .ok avgIps =>
    match cpuSlotOut runPath "waf" files with
    | .error e => .error e
    | .ok avgWaf =>
      let conc := concurrency₂ files wrk
      let (req, v50, v75, v90, v99, sock, transfer, missWrk) :=
        match wrk with
        | some w =>
          let r := parse_wrk_file₂ w.content.toList
          (r.requests_per_sec, r.p50, r.p75, r.p90, r.p99, r.socket_errors,
            r.transfer_per_sec, ([] : List String))
        | none =>
          (none, none, none, none, none, none, none, [runPath ++ "/*wrk*.txt"])
      .ok (⟨scenario, scenario_desc, runname, conc, runPath,
        avgIps.1.1, avgIps.1.2.1, avgIps.1.2.2,
        avgWaf.1.1, avgWaf.1.2.1, avgWaf.1.2.2,
        req, v50, v75, v90, v99, sock, transfer,
        wrk.map (fun w => runPath ++ "/" ++ w.name)⟩,
       avgIps.2 ++ avgWaf.2 ++ missWrk)

/-- The row `processRun₂` produces on its exception-free path. -/
def processRunVal₂ (runPath scenario scenario_desc runname : String)
    (files : List FileEnt) : Row × List String :=
  let wrk := findFirst wrkPred₂ files
  let avgIps := cpuSlotVal runPath "ips" files
  let avgWaf := cpuSlotVal runPath "waf" files
  let conc := concurrency₂ files wrk
  let (req, v50, v75, v90, v99, sock, transfer, missWrk) :=
    match wrk with
    | some w =>
      let r := parse_wrk_file₂ w.content.toList
      (r.requests_per_sec, r.p50, r.p75, r.p90, r.p99, r.socket_errors,
        r.transfer_per_sec, ([] : List String))
    | none =>
      (none, none, none, none, none, none, none, [runPath ++ "/*wrk*.txt"])
  (⟨scenario, scenario_desc, runname, conc, runPath,
    avgIps.1.1, avgIps.1.2.1, avgIps.1.2.2,
    avgWaf.1.1, avgWaf.1.2.1, avgWaf.1.2.2,
    req, v50, v75, v90, v99, sock, transfer,
    wrk.map (fun w => runPath ++ "/" ++ w.name)⟩,
   avgIps.2 ++ avgWaf.2 ++ missWrk)

/-- One run directory's contribution, with the scenario description resolved
as `SCENARIO_DESCRIPTIONS.get(scenario, describe_scenario(scenario))`. -/
def runOut₂ (rootPath : String) (sd : ScenDir) (rd : RunDir) :
    Except Unit (Row × List String) :=
  processRun₂ (rootPath ++ "/" ++ sd.name ++ "/" ++ rd.name) sd.name
    (match SCENARIO_DESCRIPTIONS.find? (fun p => p.1 = sd.name) with
     | some p => p.2
     | none => describe_scenario sd.name)
    rd.name rd.entries

def runVal₂ (rootPath : String) (sd : ScenDir) (rd : RunDir) :
    Row × List String :=
  processRunVal₂ (rootPath ++ "/" ++ sd.name ++ "/" ++ rd.name) sd.name
    (match SCENARIO_DESCRIPTIONS.find? (fun p => p.1 = sd.name) with
     | some p => p.2
     | none => describe_scenario sd.name)
    rd.name rd.entries

/-- Sequence a traversal: an uncaught exception anywhere aborts the whole
walk (first error in traversal order wins). -/
def exceptList {α : Type} : List (Except Unit α) → Except Unit (List α)
  | [] => .ok []
  | .error e :: _ => .error e
  | .ok a :: rest =>
    match exceptList rest with
    | .error e => .error e
    | .ok as => .ok (a :: as)

/-- One scenario directory's contributions: its run subdirectories in sorted
name order (`sorted(scenario_dir.iterdir())`, non-directories skipped);
a crash in any run aborts the scenario. -/
def scenOut₂ (rootPath : String) (sd : ScenDir) :
    Except Unit (List (Row × List String)) :=
  exceptList (((sd.runs.mergeSort (fun a b => a.name ≤ b.name)).filter
    (fun r => r.isDir)).map (runOut₂ rootPath sd))

def scenVal₂ (rootPath : String) (sd : ScenDir) : List (Row × List String) :=
  ((sd.runs.mergeSort (fun a b => a.name ≤ b.name)).filter
    (fun r => r.isDir)).map (runVal₂ rootPath sd)

/-- `collect_results` of `analyze_results_report.py`: scenario directories in
sorted name order (non-directories skipped), rows and missing entries
accumulated in traversal order; an `IsADirectoryError` in any CPU slot of
any run escapes the whole walk and no table is produced. -/
def collect_results₂ (rootPath : String) (root : List ScenDir) :
    Except Unit (List Row × List String) :=
  match exceptList (((root.mergeSort (fun a b => a.name ≤ b.name)).filter
      (fun s => s.isDir)).map (scenOut₂ rootPath)) with
  | .error e => .error e
  | .ok scens =>
    let outs := scens.flatMap (fun l => l)
    .ok (outs.map Prod.fst, outs.flatMap Prod.snd)

/-- The table `collect_results₂` produces on its exception-free path. -/
def collectVal₂ (rootPath : String) (root : List ScenDir) :
    List Row × List String :=
  let outs := (((root.mergeSort (fun a b => a.name ≤ b.name)).filter
    (fun s => s.isDir)).map (scenVal₂ rootPath)).flatMap (fun l => l)
  (outs.map Prod.fst, outs.flatMap Prod.snd)

/-! ### Display reordering -/

/-- `custom_order` over the indexed row table (pandas row labels made
explicit as the first component): the `NO INJECTION` rows, then the
concurrency-300, 500, 1000 buckets (each excluding `NO INJECTION`), then the
rows whose index is in none of those selections. -/
def custom_order (df : List (Nat × Row)) : List (Nat × Row) :=
  let noinj := df.filter (fun r => r.2.scenario = "NO INJECTION")
  let c300 := df.filter
    (fun r => r.2.concurrency = some 300 ∧ r.2.scenario ≠ "NO INJECTION")
  let c500 := df.filter
    (fun r => r.2.concurrency = some 500 ∧ r.2.scenario ≠ "NO INJECTION")
  let c1000 := df.filter
    (fun r => r.2.concurrency = some 1000 ∧ r.2.scenario ≠ "NO INJECTION")
  let idx := (noinj ++ c300 ++ c500 ++ c1000).map Prod.fst
  let rest := df.filter (fun r => ¬ idx.contains r.1)
  noinj ++ c300 ++ c500 ++ c1000 ++ rest

/-! ## Theorems -/

/-- Under distinct indices, an index occurs in the bucket-index list iff the
row itself lands in one of the four leading buckets. -/
theorem idx_mem_iff (df : List (Nat × Row)) (h : (df.map Prod.fst).Nodup)
    {r : Nat × Row} (hr : r ∈ df) :
    r.1 ∈ ((df.filter (fun r => decide (r.2.scenario = "NO INJECTION")) ++
      df.filter (fun r => decide (r.2.concurrency = some 300 ∧ r.2.scenario ≠ "NO INJECTION")) ++
      df.filter (fun r => decide (r.2.concurrency = some 500 ∧ r.2.scenario ≠ "NO INJECTION")) ++
      df.filter (fun r => decide (r.2.concurrency = some 1000 ∧ r.2.scenario ≠ "NO INJECTION"))).map
        Prod.fst) ↔
      (r.2.scenario = "NO INJECTION" ∨
        (r.2.concurrency = some 300 ∧ r.2.scenario ≠ "NO INJECTION") ∨
        (r.2.concurrency = some 500 ∧ r.2.scenario ≠ "NO INJECTION") ∨
        (r.2.concurrency = some 1000 ∧ r.2.scenario ≠ "NO INJECTION")) := by
  constructor
  · intro hm
    rcases List.mem_map.mp hm with ⟨y, hy, hfy⟩
    simp only [List.mem_append, List.mem_filter, decide_eq_true_eq] at hy
    have hydf : y ∈ df := by tauto
    have : y = r := List.inj_on_of_nodup_map h hydf hr hfy
    subst this
    tauto
  · intro hp
    apply List.mem_map.mpr
    refine ⟨r, ?_, rfl⟩
    simp only [List.mem_append, List.mem_filter, decide_eq_true_eq]
    tauto

/-- `custom_order` as a pure five-way filter partition (shared helper). -/
theorem custom_order_eq_filters (df : List (Nat × Row))
    (h : (df.map Prod.fst).Nodup) :
    custom_order df =
      df.filter (fun r => decide (r.2.scenario = "NO INJECTION")) ++
      df.filter (fun r => decide (r.2.concurrency = some 300 ∧ r.2.scenario ≠ "NO INJECTION")) ++
      df.filter (fun r => decide (r.2.concurrency = some 500 ∧ r.2.scenario ≠ "NO INJECTION")) ++
      df.filter (fun r => decide (r.2.concurrency = some 1000 ∧ r.2.scenario ≠ "NO INJECTION")) ++
      df.filter (fun r => decide (¬(r.2.scenario = "NO INJECTION" ∨
        (r.2.concurrency = some 300 ∧ r.2.scenario ≠ "NO INJECTION") ∨
        (r.2.concurrency = some 500 ∧ r.2.scenario ≠ "NO INJECTION") ∨
        (r.2.concurrency = some 1000 ∧ r.2.scenario ≠ "NO INJECTION")))) := by
  simp only [custom_order]
  congr 1
  apply List.filter_congr
  intro r hr
  have hiff := idx_mem_iff df h hr
  simp only [decide_eq_decide]
  rw [List.elem_iff]
  exact not_congr hiff

/-- C6 witness: a two-row table with a `NO INJECTION` row after a 300-row is
reordered to put `NO INJECTION` first, matching the filter partition. -/
def rowAt (sc : String) (conc : Option Nat) : Row :=
  ⟨sc, "", "run 1", conc, "", none, none, none, none, none, none, none,
    none, none, none, none, none, none, none⟩

/-- C6: under distinct row indices, `custom_order` is exactly the stable
five-way partition: the `NO INJECTION` rows in original order, then the
remaining rows at concurrency 300, then 500, then 1000, then all rows
matching none of those, each bucket being a `filter` of the original list
(hence preserving the original relative order). -/
theorem claim_C6 (df : List (Nat × Row)) (h : (df.map Prod.fst).Nodup) :
    custom_order df =
      df.filter (fun r => decide (r.2.scenario = "NO INJECTION")) ++
      df.filter (fun r => decide (r.2.concurrency = some 300 ∧ r.2.scenario ≠ "NO INJECTION")) ++
      df.filter (fun r => decide (r.2.concurrency = some 500 ∧ r.2.scenario ≠ "NO INJECTION")) ++
      df.filter (fun r => decide (r.2.concurrency = some 1000 ∧ r.2.scenario ≠ "NO INJECTION")) ++
      df.filter (fun r => decide (¬(r.2.scenario = "NO INJECTION" ∨
        (r.2.concurrency = some 300 ∧ r.2.scenario ≠ "NO INJECTION") ∨
        (r.2.concurrency = some 500 ∧ r.2.scenario ≠ "NO INJECTION") ∨
        (r.2.concurrency = some 1000 ∧ r.2.scenario ≠ "NO INJECTION")))) :=
  custom_order_eq_filters df h

theorem claim_C6_witness :
    ([(0, rowAt "INJ_WEB" (some 300)),
      (1, rowAt "NO INJECTION" none)].map Prod.fst).Nodup ∧
    custom_order [(0, rowAt "INJ_WEB" (some 300)),
      (1, rowAt "NO INJECTION" none)] =
      [(1, rowAt "NO INJECTION" none), (0, rowAt "INJ_WEB" (some 300))] := by
  refine ⟨by decide, ?_⟩
  rw [claim_C6 [(0, rowAt "INJ_WEB" (some 300)),
      (1, rowAt "NO INJECTION" none)] (by decide)]
  rfl

/-- C10: under distinct row indices, `custom_order` returns a permutation of
its input: every row appears exactly once, none duplicated or dropped — in
particular a `NO INJECTION` row at concurrency 300/500/1000 appears only in
the leading bucket and rows matching no bucket all appear in the trailing
remainder. -/
theorem claim_C10 (df : List (Nat × Row)) (h : (df.map Prod.fst).Nodup) :
    List.Perm (custom_order df) df := by
  rw [custom_order_eq_filters df h]
  simp only [List.append_assoc]
  have P1 := List.filter_append_perm
    (fun r : Nat × Row => decide (r.2.scenario = "NO INJECTION")) df
  have P2 := List.filter_append_perm
    (fun r : Nat × Row =>
      decide (r.2.concurrency = some 300 ∧ r.2.scenario ≠ "NO INJECTION"))
    (df.filter (fun r => !decide (r.2.scenario = "NO INJECTION")))
  have P3 := List.filter_append_perm
    (fun r : Nat × Row =>
      decide (r.2.concurrency = some 500 ∧ r.2.scenario ≠ "NO INJECTION"))
    ((df.filter (fun r => !decide (r.2.scenario = "NO INJECTION"))).filter
      (fun r => !decide (r.2.concurrency = some 300 ∧
        r.2.scenario ≠ "NO INJECTION")))
  have P4 := List.filter_append_perm
    (fun r : Nat × Row =>
      decide (r.2.concurrency = some 1000 ∧ r.2.scenario ≠ "NO INJECTION"))
    (((df.filter (fun r => !decide (r.2.scenario = "NO INJECTION"))).filter
      (fun r => !decide (r.2.concurrency = some 300 ∧
        r.2.scenario ≠ "NO INJECTION"))).filter
      (fun r => !decide (r.2.concurrency = some 500 ∧
        r.2.scenario ≠ "NO INJECTION")))
  have e_b : (df.filter (fun r =>
      !decide (r.2.scenario = "NO INJECTION"))).filter
      (fun r => decide (r.2.concurrency = some 300 ∧
        r.2.scenario ≠ "NO INJECTION")) =
      df.filter (fun r => decide (r.2.concurrency = some 300 ∧
        r.2.scenario ≠ "NO INJECTION")) := by
    rw [List.filter_filter]
    apply List.filter_congr
    intro r _
    by_cases hs : r.2.scenario = "NO INJECTION"
    · simp [hs]
    · by_cases hc : r.2.concurrency = some 300 <;> simp [hs, hc]
  have e_c : ((df.filter (fun r =>
      !decide (r.2.scenario = "NO INJECTION"))).filter
      (fun r => !decide (r.2.concurrency = some 300 ∧
        r.2.scenario ≠ "NO INJECTION"))).filter
      (fun r => decide (r.2.concurrency = some 500 ∧
        r.2.scenario ≠ "NO INJECTION")) =
      df.filter (fun r => decide (r.2.concurrency = some 500 ∧
        r.2.scenario ≠ "NO INJECTION")) := by
    rw [List.filter_filter, List.filter_filter]
    apply List.filter_congr
    intro r _
    by_cases hs : r.2.scenario = "NO INJECTION"
    · simp [hs]
    · by_cases hc : r.2.concurrency = some 500 <;> simp [hs, hc]
  have e_d : (((df.filter (fun r =>
      !decide (r.2.scenario = "NO INJECTION"))).filter
      (fun r => !decide (r.2.concurrency = some 300 ∧
        r.2.scenario ≠ "NO INJECTION"))).filter
      (fun r => !decide (r.2.concurrency = some 500 ∧
        r.2.scenario ≠ "NO INJECTION"))).filter
      (fun r => decide (r.2.concurrency = some 1000 ∧
        r.2.scenario ≠ "NO INJECTION")) =
      df.filter (fun r => decide (r.2.concurrency = some 1000 ∧
        r.2.scenario ≠ "NO INJECTION")) := by
    rw [List.filter_filter, List.filter_filter, List.filter_filter]
    apply List.filter_congr
    intro r _
    by_cases hs : r.2.scenario = "NO INJECTION"
    · simp [hs]
    · by_cases hc : r.2.concurrency = some 1000 <;> simp [hs, hc]
  have e_rest : (((df.filter (fun r =>
      !decide (r.2.scenario = "NO INJECTION"))).filter
      (fun r => !decide (r.2.concurrency = some 300 ∧
        r.2.scenario ≠ "NO INJECTION"))).filter
      (fun r => !decide (r.2.concurrency = some 500 ∧
        r.2.scenario ≠ "NO INJECTION"))).filter
      (fun r => !decide (r.2.concurrency = some 1000 ∧
        r.2.scenario ≠ "NO INJECTION")) =
      df.filter (fun r => decide (¬(r.2.scenario = "NO INJECTION" ∨
        (r.2.concurrency = some 300 ∧ r.2.scenario ≠ "NO INJECTION") ∨
        (r.2.concurrency = some 500 ∧ r.2.scenario ≠ "NO INJECTION") ∨
        (r.2.concurrency = some 1000 ∧ r.2.scenario ≠ "NO INJECTION")))) := by
    rw [List.filter_filter, List.filter_filter, List.filter_filter]
    apply List.filter_congr
    intro r _
    by_cases hs : r.2.scenario = "NO INJECTION" <;>
      by_cases h3 : r.2.concurrency = some 300 <;>
      by_cases h5 : r.2.concurrency = some 500 <;>
      by_cases h10 : r.2.concurrency = some 1000 <;>
      simp_all
  refine List.Perm.trans ?_ P1
  apply List.Perm.append_left
  rw [← e_b]
  refine List.Perm.trans ?_ P2
  apply List.Perm.append_left
  rw [← e_c]
  refine List.Perm.trans ?_ P3
  apply List.Perm.append_left
  rw [← e_d, ← e_rest]
  exact P4

/-- C10 witness: instantiation of the permutation theorem on a concrete
two-row table. -/
theorem claim_C10_witness :
    ([(0, rowAt "INJ_WEB" (some 300)),
      (1, rowAt "NO INJECTION" none)].map Prod.fst).Nodup ∧
    List.Perm
      (custom_order [(0, rowAt "INJ_WEB" (some 300)),
        (1, rowAt "NO INJECTION" none)])
      [(0, rowAt "INJ_WEB" (some 300)), (1, rowAt "NO INJECTION" none)] :=
  ⟨by decide, claim_C10 _ (by decide)⟩

/-! ### C3 / C7: candidate-file selection and concurrency detection -/

/-- `findFirst` (the `break`-on-first-match loop) is `List.find?`. -/
theorem findFirst_eq_find? (p : FileEnt → Bool) (l : List FileEnt) :
    findFirst p l = l.find? p := by
  induction l with
  | nil => rfl
  | cons f fs ih =>
    simp only [findFirst, List.find?]
    by_cases hf : p f <;> simp [hf, ih]

/-- The no-`break` loop keeps the last match: it is `find?` over the
reversed list, falling back to the initial slot value. -/
theorem loopLast_eq (p : FileEnt → Bool) (l : List FileEnt)
    (acc : Option FileEnt) :
    loopLast p acc l = (l.reverse.find? p).or acc := by
  induction l generalizing acc with
  | nil => simp [loopLast]
  | cons f fs ih =>
    simp only [loopLast, List.reverse_cons]
    rw [ih, List.find?_append]
    by_cases hf : p f
    · simp [List.find?, hf, Option.or_assoc]
    · simp [List.find?, hf]

/-- C3 (amended): the wrk slot takes the first matching entry in directory
order in both variants; the CPU slots take the *last* matching entry, and in
the simpler variant a `summary_<role>` match additionally overrides any
`avg_cpu_<role>` match (the richer variant tests both names in a single
last-match-wins loop, as substrings of the lowercased name). -/
theorem claim_C3 :
    (∀ files, findFirst wrkPred₁ files = files.find? wrkPred₁) ∧
    (∀ files, findFirst wrkPred₂ files = files.find? wrkPred₂) ∧
    (∀ role files, avgSel₁ role files =
      (files.reverse.find? (fun f => f.isFile &&
        strStarts ("summary_" ++ role).toList (lowerL f.name))).or
      (files.reverse.find? (fun f => f.isFile &&
        strStarts ("avg_cpu_" ++ role).toList (lowerL f.name)))) ∧
    (∀ role files, avgSel₂ role files =
      files.reverse.find? (fun f =>
        containsSub ("avg_cpu_" ++ role).toList (lowerL f.name) ||
        containsSub ("summary_" ++ role).toList (lowerL f.name))) := by
  refine ⟨fun files => findFirst_eq_find? _ files,
    fun files => findFirst_eq_find? _ files, fun role files => ?_,
    fun role files => ?_⟩
  · unfold avgSel₁
    rw [loopLast_eq, loopLast_eq]
    simp [Option.or_none]
  · unfold avgSel₂
    rw [loopLast_eq]
    simp [Option.or_none]

/-- C3 counterexample: with two `avg_cpu_ips` files in the run directory,
both variants assign the slot to the *second* (last) matching file, not the
first encountered as the claim states. -/
theorem claim_C3_cex :
    avgSel₁ "ips" [⟨"avg_cpu_ips_300.txt", true, ""⟩,
      ⟨"avg_cpu_ips_500.txt", true, ""⟩] =
        some ⟨"avg_cpu_ips_500.txt", true, ""⟩ ∧
    avgSel₂ "ips" [⟨"avg_cpu_ips_300.txt", true, ""⟩,
      ⟨"avg_cpu_ips_500.txt", true, ""⟩] =
        some ⟨"avg_cpu_ips_500.txt", true, ""⟩ ∧
    (⟨"avg_cpu_ips_300.txt", true, ""⟩ : FileEnt) ≠
      ⟨"avg_cpu_ips_500.txt", true, ""⟩ := by
  refine ⟨?_, ?_, by decide⟩ <;> rfl

/-- `scanConc` is: first entry whose name's first standalone 2–5 digit
number passes the acceptance test, that number. -/
theorem scanConc_eq (acc : Nat → Bool) (files : List FileEnt) :
    scanConc acc files = (files.filterMap (fun f =>
      match stand25 f.name.toList with
      | some n => if acc n then some n else none
      | none => none)).head? := by
  induction files with
  | nil => rfl
  | cons f fs ih =>
    simp only [scanConc, List.filterMap]
    cases hs : stand25 f.name.toList with
    | none => simp [hs, ih]
    | some n =>
      by_cases ha : acc n
      · simp [hs, ha]
      · simp [hs, ha, ih]

/-- C7 (amended): the acceptance predicates match the claim's "canonical set
or greater than 100" reading; the simpler variant's cascade is
filename-scan, then CPU-filename number, then `c<digits>` on the wrk
filename; the richer variant's cascade has *no* CPU-filename fallback — only
the filename scan and then `c<digits>`. -/
theorem claim_C7 :
    (∀ n : Nat, accept₁ n = true ↔
      (n ∈ ([50, 100, 200, 300, 500, 1000, 2000, 4000] : List Nat) ∨ 100 < n)) ∧
    (∀ n : Nat, accept₂ n = true ↔
      (n ∈ ([50, 100, 200, 300, 500, 1000, 2000] : List Nat) ∨ 100 < n)) ∧
    (∀ acc files, scanConc acc files = (files.filterMap (fun f =>
      match stand25 f.name.toList with
      | some n => if acc n then some n else none
      | none => none)).head?) ∧
    (∀ files avg_ips wrk, concurrency₁ files avg_ips wrk =
      ((scanConc accept₁ files).or
        (avg_ips.bind (fun a => firstD25 a.name.toList))).or
        (wrk.bind (fun w => cNum w.name.toList))) ∧
    (∀ files wrk, concurrency₂ files wrk =
      (scanConc accept₂ files).or
        (wrk.bind (fun w => cNum w.name.toList))) := by
  refine ⟨?_, ?_, scanConc_eq, ?_, ?_⟩
  · intro n
    simp only [accept₁, Bool.or_eq_true, decide_eq_true_eq, List.mem_cons,
      List.not_mem_nil, or_false]
    omega
  · intro n
    simp only [accept₂, Bool.or_eq_true, decide_eq_true_eq, List.mem_cons,
      List.not_mem_nil, or_false]
    omega
  · intro files avg_ips wrk
    unfold concurrency₁
    cases scanConc accept₁ files <;> cases avg_ips <;> cases wrk <;>
      simp only [Option.or, Option.bind] <;>
      (try rfl) <;>
      (first
        | (rename_i x y
           cases firstD25 x.name.toList <;> rfl)
        | (rename_i x
           cases firstD25 x.name.toList <;> rfl))
  · intro files wrk
    unfold concurrency₂
    cases scanConc accept₂ files <;> cases wrk <;> simp only [Option.or] <;> rfl

/-- C7 counterexample: a run directory whose only file is
`avg_cpu_ips_99.txt` (99 fails the acceptance test).  The claim's cascade
falls back to the CPU filename and yields 99 — which is what the simpler
variant computes — but the richer variant has no such fallback and leaves
concurrency absent. -/
theorem claim_C7_cex :
    concurrency₂ [⟨"avg_cpu_ips_99.txt", true, ""⟩] none = none ∧
    concurrency₁ [⟨"avg_cpu_ips_99.txt", true, ""⟩]
      (some ⟨"avg_cpu_ips_99.txt", true, ""⟩) none = some 99 := by
  constructor <;> rfl

/-! ### C4 / C9: wrk-log parsing structure -/

/-- A wrk log containing both a per-line percentile block and a one-line
inline trio with different values. -/
def wrkBothTxt : List Char :=
  "  50%   1ms\n  75%   2ms\n  90%   3ms\n  99%   4ms\nx 50% 7ms 75% 8ms 90% 9ms\n".toList

/-- C4 counterexample: the per-line search for p50 *does* match (capturing
1ms), yet the richer variant's result holds the inline trio's value 7ms
(and the simpler variant behaves identically): the inline pattern is not a
mere fallback — it overwrites per-line results whenever it matches.  p99
stays at its per-line/independent-search value 4ms. -/
theorem claim_C4_cex :
    perLineVal convert_to_seconds₂ "50" wrkBothTxt = some (1 / 1000) ∧
    (parse_wrk_file₂ wrkBothTxt).p50 = some (7 / 1000) ∧
    (parse_wrk_file₁ wrkBothTxt).p50 = some (7 / 1000) ∧
    (parse_wrk_file₂ wrkBothTxt).p99 = some (4 / 1000) := by
  refine ⟨?_, ?_, ?_, ?_⟩ <;> rfl

/-- C4 (amended): the inline trio pattern is applied unconditionally — when
it matches, its three captures replace any per-line p50/p75/p90 results;
when it does not, the per-line results stand.  It never sets or alters p99,
which always comes from its own independent `99%` search performed after the
trio pattern (falling back to the per-line p99 result only when that search
fails). Stated for both variants. -/
theorem claim_C4 : ∀ text : List Char,
    ((parse_wrk_file₂ text).p50 =
      (match searchFrom patInline text with
        | some m => (capLookup 1 m.caps).bind convert_to_seconds₂
        | none => perLineVal convert_to_seconds₂ "50" text) ∧
     (parse_wrk_file₂ text).p75 =
      (match searchFrom patInline text with
        | some m => (capLookup 2 m.caps).bind convert_to_seconds₂
        | none => perLineVal convert_to_seconds₂ "75" text) ∧
     (parse_wrk_file₂ text).p90 =
      (match searchFrom patInline text with
        | some m => (capLookup 3 m.caps).bind convert_to_seconds₂
        | none => perLineVal convert_to_seconds₂ "90" text) ∧
     (parse_wrk_file₂ text).p99 =
      (match searchFrom patP99 text with
        | some m => (capLookup 1 m.caps).bind convert_to_seconds₂
        | none => perLineVal convert_to_seconds₂ "99" text)) ∧
    ((parse_wrk_file₁ text).p50 =
      (match searchFrom patInline text with
        | some m => (capLookup 1 m.caps).bind convert_to_seconds₁
        | none => perLineVal convert_to_seconds₁ "50" text) ∧
     (parse_wrk_file₁ text).p75 =
      (match searchFrom patInline text with
        | some m => (capLookup 2 m.caps).bind convert_to_seconds₁
        | none => perLineVal convert_to_seconds₁ "75" text) ∧
     (parse_wrk_file₁ text).p90 =
      (match searchFrom patInline text with
        | some m => (capLookup 3 m.caps).bind convert_to_seconds₁
        | none => perLineVal convert_to_seconds₁ "90" text) ∧
     (parse_wrk_file₁ text).p99 =
      (match searchFrom patP99 text with
        | some m => (capLookup 1 m.caps).bind convert_to_seconds₁
        | none => perLineVal convert_to_seconds₁ "99" text)) := by
  intro text
  cases hI : searchFrom patInline text <;>
    cases hN : searchFrom patP99 text <;>
    refine ⟨⟨?_, ?_, ?_, ?_⟩, ?_, ?_, ?_, ?_⟩ <;>
    simp only [parse_wrk_file₁, parse_wrk_file₂, hI, hN]

/-- C9: `parse_wrk_file` of both variants is a total function into a record
(never an absent result, never an exception — in the source, every fallible
step is an `if m:` guard), and each field is individually absent when its
pattern fails to match anywhere in the text. -/
theorem claim_C9 : ∀ text : List Char,
    (searchFrom patReq text = none →
      (parse_wrk_file₂ text).requests_per_sec = none ∧
      (parse_wrk_file₁ text).requests_per_sec = none) ∧
    (searchML (patPerLine "50") text = none → searchFrom patInline text = none →
      (parse_wrk_file₂ text).p50 = none ∧ (parse_wrk_file₁ text).p50 = none) ∧
    (searchML (patPerLine "75") text = none → searchFrom patInline text = none →
      (parse_wrk_file₂ text).p75 = none ∧ (parse_wrk_file₁ text).p75 = none) ∧
    (searchML (patPerLine "90") text = none → searchFrom patInline text = none →
      (parse_wrk_file₂ text).p90 = none ∧ (parse_wrk_file₁ text).p90 = none) ∧
    (searchML (patPerLine "99") text = none → searchFrom patP99 text = none →
      (parse_wrk_file₂ text).p99 = none ∧ (parse_wrk_file₁ text).p99 = none) ∧
    (searchFrom patSocket₂ text = none →
      (parse_wrk_file₂ text).socket_errors = none) ∧
    (searchFrom patSocket₁ text = none →
      (parse_wrk_file₁ text).raw_errors = none) ∧
    (searchFrom patTransfer text = none →
      (parse_wrk_file₂ text).transfer_per_sec = none) := by
  intro text
  refine ⟨fun h => ?_, fun h1 h2 => ?_, fun h1 h2 => ?_, fun h1 h2 => ?_,
    fun h1 h2 => ?_, fun h => ?_, fun h => ?_, fun h => ?_⟩ <;>
    simp only [parse_wrk_file₁, parse_wrk_file₂, perLineVal] <;>
    simp [*]

/-- C9 witness: on a text matching none of the patterns, every field is
absent. -/
theorem claim_C9_witness :
    (parse_wrk_file₂ "hello world".toList).requests_per_sec = none ∧
    (parse_wrk_file₂ "hello world".toList).p50 = none ∧
    (parse_wrk_file₂ "hello world".toList).p99 = none ∧
    (parse_wrk_file₁ "hello world".toList).raw_errors = none := by
  have h := claim_C9 "hello world".toList
  refine ⟨(h.1 rfl).1, ((h.2.1 rfl) rfl).1, ?_, h.2.2.2.2.2.2.1 rfl⟩
  exact ((h.2.2.2.2.1 rfl) rfl).1

/-! ### C2: CPU-metric invariant and idle-only fallback -/

/-- `defsGrp i r`: every successful match of `r` binds capture group `i`. -/
def defsGrp (i : Nat) : RE → Bool
  | .eps => false
  | .lit _ _ => false
  | .one _ => false
  | .star _ => false
  | .plus _ => false
  | .opt _ => false
  | .alt a b => defsGrp i a && defsGrp i b
  | .cat a b => defsGrp i a || defsGrp i b
  | .grp j r => (j = i) || defsGrp i r

theorem capLookup_append (i : Nat) (c₁ c₂ : Caps) :
    capLookup i (c₁ ++ c₂) = (capLookup i c₁).or (capLookup i c₂) := by
  simp only [capLookup, List.find?_append]
  cases List.find? (fun p => p.1 = i) c₁ <;> simp [Option.or]

/-- If a pattern defines group `i`, every alternative produced by the engine
carries a capture for `i`. -/
theorem mall_defsGrp {i : Nat} : ∀ {r : RE}, defsGrp i r = true →
    ∀ {s : List Char} {p : Caps × List Char}, p ∈ mall r s →
      (capLookup i p.1).isSome := by
  intro r
  induction r with
  | eps => intro h; simp [defsGrp] at h
  | lit ci l => intro h; simp [defsGrp] at h
  | one c => intro h; simp [defsGrp] at h
  | star c => intro h; simp [defsGrp] at h
  | plus c => intro h; simp [defsGrp] at h
  | opt r ih => intro h; simp [defsGrp] at h
  | alt a b iha ihb =>
    intro h s p hp
    simp only [defsGrp, Bool.and_eq_true] at h
    simp only [mall, List.mem_append] at hp
    rcases hp with hp | hp
    · exact iha h.1 hp
    · exact ihb h.2 hp
  | cat a b iha ihb =>
    intro h s p hp
    simp only [defsGrp, Bool.or_eq_true] at h
    simp only [mall, List.mem_flatMap, List.mem_map] at hp
    rcases hp with ⟨pa, hpa, ⟨qb, hqb, heq⟩⟩
    have : p.1 = pa.1 ++ qb.1 := by rw [← heq]
    rw [this, capLookup_append]
    rcases h with h | h
    · have := iha h hpa
      cases hc : capLookup i pa.1
      · rw [hc] at this; simp at this
      · simp [Option.or]
    · have := ihb h hqb
      cases hc : capLookup i qb.1
      · rw [hc] at this; simp at this
      · cases capLookup i pa.1 <;> simp [Option.or, hc]
  | grp j r ih =>
    intro h s p hp
    simp only [defsGrp, Bool.or_eq_true, decide_eq_true_eq] at h
    simp only [mall, List.mem_map] at hp
    rcases hp with ⟨q, hq, heq⟩
    have hp1 : p.1 = (j, s.take (s.length - q.2.length)) :: q.1 := by
      rw [← heq]
    rw [hp1]
    by_cases hji : j = i
    · simp [capLookup, hji]
    · have hd : defsGrp i r = true := by tauto
      have := ih hd hq
      simpa [capLookup, List.find?_cons, hji] using this

/-- A successful `searchFrom` returns the captures of some engine
alternative (at the successful offset). -/
theorem searchFrom_mem {r : RE} : ∀ {s : List Char} {m : MRes},
    searchFrom r s = some m →
      ∃ s' rest, (m.caps, rest) ∈ mall r s' := by
  intro s
  induction s with
  | nil =>
    intro m h
    rw [searchFrom_eq] at h
    revert h
    cases hm : mall r [] with
    | nil => intro h; simp at h
    | cons a t =>
      intro h
      simp only [Option.some.injEq] at h
      refine ⟨[], a.2, ?_⟩
      rw [hm, ← h]
      exact List.mem_cons_self _ _
  | cons x xs ih =>
    intro m h
    rw [searchFrom_eq] at h
    revert h
    cases hm : mall r (x :: xs) with
    | nil => intro h; exact ih h
    | cons a t =>
      intro h
      simp only [Option.some.injEq] at h
      refine ⟨x :: xs, a.2, ?_⟩
      rw [hm, ← h]
      exact List.mem_cons_self _ _

/-- Capture group 1 is present in every successful CPU-pattern search. -/
theorem avgCap1_isSome {pat : RE} (hd : defsGrp 1 pat = true)
    {text : List Char} {m : MRes} (h : searchFrom pat text = some m) :
    (capLookup 1 m.caps).isSome := by
  rcases searchFrom_mem h with ⟨s', rest, hmem⟩
  exact mall_defsGrp hd hmem

/-- C2 (amended): for both variants, whenever `parse_avg_cpu_file` returns a
record at least one of busy/idle is present; and on a text where none of the
three busy patterns matches but the idle pattern does, the simpler variant
returns busy *absent*, idle = I, samples absent, while the richer variant
returns busy = round(100 − I, 2), idle = I, samples absent. -/
theorem claim_C2 : ∀ text : List Char,
    (∀ r, parse_avg_cpu_file₁ text = some r →
      (r.busy.isSome ∨ r.idle.isSome)) ∧
    (∀ r, parse_avg_cpu_file₂ text = some r →
      (r.busy.isSome ∨ r.idle.isSome)) ∧
    (searchFrom patAvgRich text = none →
     searchFrom (patAvgMid .any) text = none →
     searchFrom (patAvgMin .any) text = none →
     ∀ m, searchFrom patAvgIdle text = some m →
       parse_avg_cpu_file₁ text =
         some ⟨none, (capLookup 1 m.caps).map decToQ, none⟩) ∧
    (searchFrom patAvgRich text = none →
     searchFrom (patAvgMid .nonnl) text = none →
     searchFrom (patAvgMin .nonnl) text = none →
     ∀ m, searchFrom patAvgIdle text = some m →
       parse_avg_cpu_file₂ text =
         some ⟨some (round2 (100 - (capLookup 1 m.caps).elim 0 decToQ)),
           some ((capLookup 1 m.caps).elim 0 decToQ), none⟩) := by
  intro text
  refine ⟨?_, ?_, ?_, ?_⟩
  · intro r hr
    unfold parse_avg_cpu_file₁ at hr
    cases h1 : searchFrom patAvgRich text with
    | some m =>
      rw [h1] at hr
      left
      cases hr
      simpa using avgCap1_isSome (by decide) h1
    | none =>
      rw [h1] at hr
      cases h2 : searchFrom (patAvgMid .any) text with
      | some m =>
        rw [h2] at hr
        left
        cases hr
        simpa using avgCap1_isSome (by decide) h2
      | none =>
        rw [h2] at hr
        cases h3 : searchFrom (patAvgMin .any) text with
        | some m =>
          rw [h3] at hr
          left
          cases hr
          simpa using avgCap1_isSome (by decide) h3
        | none =>
          rw [h3] at hr
          cases h4 : searchFrom patAvgIdle text with
          | some m =>
            rw [h4] at hr
            right
            cases hr
            simpa using avgCap1_isSome (by decide) h4
          | none => rw [h4] at hr; cases hr
  · intro r hr
    unfold parse_avg_cpu_file₂ at hr
    cases h1 : searchFrom patAvgRich text with
    | some m =>
      rw [h1] at hr
      left
      cases hr
      simpa using avgCap1_isSome (by decide) h1
    | none =>
      rw [h1] at hr
      cases h2 : searchFrom (patAvgMid .nonnl) text with
      | some m =>
        rw [h2] at hr
        left
        cases hr
        simpa using avgCap1_isSome (by decide) h2
      | none =>
        rw [h2] at hr
        cases h3 : searchFrom (patAvgMin .nonnl) text with
        | some m =>
          rw [h3] at hr
          left
          cases hr
          simpa using avgCap1_isSome (by decide) h3
        | none =>
          rw [h3] at hr
          cases h4 : searchFrom patAvgIdle text with
          | some m =>
            rw [h4] at hr
            left
            cases hr
            simp
          | none => rw [h4] at hr; cases hr
  · intro h1 h2 h3 m h4
    unfold parse_avg_cpu_file₁
    rw [h1, h2, h3, h4]
  · intro h1 h2 h3 m h4
    unfold parse_avg_cpu_file₂
    rw [h1, h2, h3, h4]

/-- C2 witness: the idle-only fallback on a concrete text: the simpler
variant leaves busy absent; the richer derives busy = round(100 − 40, 2). -/
theorem claim_C2_witness :
    parse_avg_cpu_file₁ "avg idle = 40 %".toList =
      some ⟨none, some 40, none⟩ ∧
    parse_avg_cpu_file₂ "avg idle = 40 %".toList =
      some ⟨some (round2 (100 - 40)), some 40, none⟩ := by
  constructor
  · have h := ((claim_C2 "avg idle = 40 %".toList).2.2.1) rfl rfl rfl
      ⟨"avg idle = 40 %".toList, [(1, "40".toList)]⟩ rfl
    rw [h]
    rfl
  · have h := ((claim_C2 "avg idle = 40 %".toList).2.2.2) rfl rfl rfl
      ⟨"avg idle = 40 %".toList, [(1, "40".toList)]⟩ rfl
    rw [h]
    rfl

/-- C2 counterexample: on an idle-only text the simpler variant's record has
busy absent, not 100 − idle (neither rounded nor unrounded), contradicting
the claim that busy = 100 − idle whenever only idle is found. -/
theorem claim_C2_cex :
    (parse_avg_cpu_file₁ "avg idle = 40 %".toList).map (fun r => r.busy) =
      some none ∧
    (none : Option ℚ) ≠ some (100 - 40) ∧
    (none : Option ℚ) ≠ some (round2 (100 - 40)) := by
  refine ⟨?_, by decide, by decide⟩
  rfl

/-! ### C8: missing wrk file handling -/

theorem strCancel {p a b : String} (h : p ++ a = p ++ b) : a = b := by
  have hd : p.data ++ a.data = p.data ++ b.data := congrArg String.data h
  have := List.append_cancel_left hd
  cases a
  cases b
  exact congrArg String.mk this

/-- A slot filled by a no-`break` loop from an empty start satisfies the
loop's predicate and comes from the list. -/
theorem loopLast_sat {p : FileEnt → Bool} {l : List FileEnt} {x : FileEnt}
    (h : loopLast p none l = some x) : p x = true ∧ x ∈ l := by
  rw [loopLast_eq] at h
  simp only [Option.or_none] at h
  exact ⟨List.find?_some h, List.mem_reverse.mp (List.mem_of_find?_eq_some h)⟩

/-- Every run directory of every scenario directory contributes its row to
the simpler variant's table. -/
theorem collect₁_row_mem (rootPath : String) (root : List ScenDir)
    {sd : ScenDir} {rd : RunDir} (hsd : sd ∈ root) (hsdd : sd.isDir = true)
    (hrd : rd ∈ sd.runs) (hrdd : rd.isDir = true) :
    (runOut₁ rootPath sd rd).1 ∈ (collect_results₁ rootPath root).1 := by
  unfold collect_results₁
  apply List.mem_map.mpr
  refine ⟨runOut₁ rootPath sd rd, ?_, rfl⟩
  apply List.mem_flatMap.mpr
  refine ⟨sd, ?_, ?_⟩
  · apply List.mem_filter.mpr
    exact ⟨List.mem_mergeSort.mpr hsd, by simp [hsdd]⟩
  · unfold scenOut₁
    apply List.mem_map.mpr
    refine ⟨rd, ?_, rfl⟩
    apply List.mem_filter.mpr
    exact ⟨List.mem_mergeSort.mpr hrd, by simp [hrdd]⟩

/-- Every run directory of every scenario directory contributes its row to
the richer variant's exception-free table. -/
theorem collect₂_row_mem (rootPath : String) (root : List ScenDir)
    {sd : ScenDir} {rd : RunDir} (hsd : sd ∈ root) (hsdd : sd.isDir = true)
    (hrd : rd ∈ sd.runs) (hrdd : rd.isDir = true) :
    (runVal₂ rootPath sd rd).1 ∈ (collectVal₂ rootPath root).1 := by
  unfold collectVal₂
  apply List.mem_map.mpr
  refine ⟨runVal₂ rootPath sd rd, ?_, rfl⟩
  apply List.mem_flatMap.mpr
  refine ⟨scenVal₂ rootPath sd, ?_, ?_⟩
  · apply List.mem_map.mpr
    refine ⟨sd, ?_, rfl⟩
    apply List.mem_filter.mpr
    exact ⟨List.mem_mergeSort.mpr hsd, by simp [hsdd]⟩
  · unfold scenVal₂
    apply List.mem_map.mpr
    refine ⟨rd, ?_, rfl⟩
    apply List.mem_filter.mpr
    exact ⟨List.mem_mergeSort.mpr hrd, by simp [hrdd]⟩

/-- `p ++ q` occurring as a prefix implies `p` occurring as a prefix. -/
theorem litMatch_append_isSome :
    ∀ {p q s : List Char}, (litMatch false (p ++ q) s).isSome →
      (litMatch false p s).isSome := by
  intro p
  induction p with
  | nil => intro q s h; simp [litMatch]
  | cons a as ih =>
    intro q s h
    cases s with
    | nil => simp [litMatch] at h
    | cons b bs =>
      simp only [List.cons_append, litMatch] at h ⊢
      by_cases hc : charMatch false a b
      · rw [if_pos hc] at h ⊢
        exact ih h
      · rw [if_neg hc] at h
        simp at h

/-- Substring monotonicity: if `p ++ q` occurs in `s`, so does `p`. -/
theorem containsSub_mono {p q : List Char} :
    ∀ {s : List Char}, containsSub (p ++ q) s = true → containsSub p s = true := by
  intro s
  induction s with
  | nil =>
    intro h
    simp only [containsSub, Bool.or_eq_true] at h ⊢
    rcases h with h | h
    · exact Or.inl (litMatch_append_isSome h)
    · simp at h
  | cons b bs ih =>
    intro h
    simp only [containsSub, Bool.or_eq_true] at h ⊢
    rcases h with h | h
    · exact Or.inl (litMatch_append_isSome h)
    · exact Or.inr (ih h)

/-- A selected CPU file of the simpler variant is a regular file whose
lowercased name starts with `avg_cpu_<role>` or `summary_<role>`. -/
theorem avgSel₁_sat {role : String} {files : List FileEnt} {a : FileEnt}
    (h : avgSel₁ role files = some a) :
    a.isFile = true ∧
      (strStarts ("avg_cpu_" ++ role).toList (lowerL a.name) = true ∨
       strStarts ("summary_" ++ role).toList (lowerL a.name) = true) := by
  unfold avgSel₁ at h
  rw [loopLast_eq, loopLast_eq, Option.or_none] at h
  cases h2 : files.reverse.find? (fun f => f.isFile &&
      strStarts ("summary_" ++ role).toList (lowerL f.name)) with
  | some b =>
    rw [h2] at h
    have h4 : some b = some a := h
    injection h4 with h3
    subst h3
    have hp := List.find?_some h2
    simp only [Bool.and_eq_true] at hp
    exact ⟨hp.1, Or.inr hp.2⟩
  | none =>
    rw [h2, Option.none_or] at h
    have hp := List.find?_some h
    simp only [Bool.and_eq_true] at hp
    exact ⟨hp.1, Or.inl hp.2⟩

/-- A CPU slot of the simpler variant never records the wrk-file missing
entry. -/
theorem cpuSlot₁_count0 (runPath role : String) (files : List FileEnt) :
    (cpuSlotOut₁ runPath role files).2.count (runPath ++ "/*wrk*.txt") = 0 := by
  cases hsel : avgSel₁ role files with
  | none =>
    have hne : runPath ++ "/AVG_CPU_" ++ role ++ "_*.txt" ≠
        runPath ++ "/*wrk*.txt" := by
      intro h
      have h2 : runPath ++ ("/AVG_CPU_" ++ (role ++ "_*.txt")) =
          runPath ++ "/*wrk*.txt" := by
        rw [← h, String.append_assoc, String.append_assoc]
      have h3 := congrArg String.data (strCancel h2)
      have hd9 : ("/AVG_CPU_" ++ (role ++ "_*.txt")).data =
          '/' :: 'A' :: ("VG_CPU_".data ++ (role ++ "_*.txt").data) := rfl
      rw [hd9] at h3
      simp at h3
    simp [cpuSlotOut₁, hsel, List.count_cons, List.count_nil, hne, Ne.symm hne]
  | some a =>
    cases hp : parse_avg_cpu_file₁ a.content.toList with
    | some p =>
      simp only [String.toList] at hp
      simp [cpuSlotOut₁, hsel, hp]
    | none =>
      simp only [String.toList] at hp
      have hb := (avgSel₁_sat hsel).2
      have hname : a.name ≠ "*wrk*.txt" := by
        intro hn
        rw [hn] at hb
        rcases hb with hx | hx
        · have h9 : strStarts "avg_cpu_".toList (lowerL "*wrk*.txt") = true :=
            @litMatch_append_isSome "avg_cpu_".toList role.toList _ hx
          revert h9
          decide
        · have h9 : strStarts "summary_".toList (lowerL "*wrk*.txt") = true :=
            @litMatch_append_isSome "summary_".toList role.toList _ hx
          revert h9
          decide
      have hne : runPath ++ "/" ++ a.name ≠ runPath ++ "/*wrk*.txt" := by
        intro h
        have h2 : (runPath ++ "/") ++ a.name = (runPath ++ "/") ++ "*wrk*.txt" := by
          rw [h, String.append_assoc]
          rfl
        exact hname (strCancel h2)
      simp [cpuSlotOut₁, hsel, hp, List.count_cons, List.count_nil, hne,
        Ne.symm hne]

/-- A CPU slot of the richer variant never records the wrk-file missing
entry (on its exception-free path). -/
theorem cpuSlot_count0 (runPath role : String) (files : List FileEnt) :
    (cpuSlotVal runPath role files).2.count (runPath ++ "/*wrk*.txt") = 0 := by
  cases hsel : avgSel₂ role files with
  | none =>
    have hne : runPath ++ "/AVG_CPU_" ++ role ++ "_*.txt" ≠
        runPath ++ "/*wrk*.txt" := by
      intro h
      have h2 : runPath ++ ("/AVG_CPU_" ++ (role ++ "_*.txt")) =
          runPath ++ "/*wrk*.txt" := by
        rw [← h, String.append_assoc, String.append_assoc]
      have h3 := congrArg String.data (strCancel h2)
      have hd9 : ("/AVG_CPU_" ++ (role ++ "_*.txt")).data =
          '/' :: 'A' :: ("VG_CPU_".data ++ (role ++ "_*.txt").data) := rfl
      rw [hd9] at h3
      simp at h3
    simp [cpuSlotVal, hsel, List.count_cons, List.count_nil, hne, Ne.symm hne]
  | some a =>
    cases hp : parse_avg_cpu_file₂ a.content.toList with
    | some p =>
      simp only [String.toList] at hp
      simp [cpuSlotVal, hsel, hp]
    | none =>
      simp only [String.toList] at hp
      have hb := (loopLast_sat (show loopLast (fun f =>
          containsSub ("avg_cpu_" ++ role).toList (lowerL f.name) ||
          containsSub ("summary_" ++ role).toList (lowerL f.name))
          none files = some a from hsel)).1
      have hname : a.name ≠ "*wrk*.txt" := by
        intro hn
        rw [hn] at hb
        rcases Bool.or_eq_true_iff.mp hb with hx | hx
        · have hmono : containsSub "avg_cpu_".toList (lowerL "*wrk*.txt") = true :=
            @containsSub_mono "avg_cpu_".toList role.toList _ hx
          revert hmono
          decide
        · have hmono : containsSub "summary_".toList (lowerL "*wrk*.txt") = true :=
            @containsSub_mono "summary_".toList role.toList _ hx
          revert hmono
          decide
      have hne : runPath ++ "/" ++ a.name ≠ runPath ++ "/*wrk*.txt" := by
        intro h
        have h2 : (runPath ++ "/") ++ a.name = (runPath ++ "/") ++ "*wrk*.txt" := by
          rw [h, String.append_assoc]
          rfl
        exact hname (strCancel h2)
      simp [cpuSlotVal, hsel, hp, List.count_cons, List.count_nil, hne,
        Ne.symm hne]

/-- A traversal all of whose steps succeed sequences to the list of their
values. -/
theorem exceptList_map_ok {α β : Type} {g : β → Except Unit α} {f : β → α} :
    ∀ {l : List β}, (∀ b ∈ l, g b = .ok (f b)) →
      exceptList (l.map g) = .ok (l.map f) := by
  intro l
  induction l with
  | nil => intro h; rfl
  | cons b bs ih =>
    intro h
    rw [List.map_cons, List.map_cons]
    show exceptList (g b :: bs.map g) = _
    rw [h b (List.mem_cons_self b bs)]
    simp only [exceptList]
    rw [ih (fun x hx => h x (List.mem_cons_of_mem b hx))]

/-- When the selected CPU entry (if any) is a regular file, the slot takes
its exception-free path. -/
theorem cpuSlot_agree {runPath role : String} {files : List FileEnt}
    (h : ∀ a, avgSel₂ role files = some a → a.isFile = true) :
    cpuSlotOut runPath role files = .ok (cpuSlotVal runPath role files) := by
  cases hsel : avgSel₂ role files with
  | none => simp [cpuSlotOut, cpuSlotVal, hsel]
  | some a =>
    cases hp : parse_avg_cpu_file₂ a.content.toList with
    | some p =>
      simp only [String.toList] at hp
      simp [cpuSlotOut, cpuSlotVal, hsel, h a hsel, hp]
    | none =>
      simp only [String.toList] at hp
      simp [cpuSlotOut, cpuSlotVal, hsel, h a hsel, hp]

theorem runOut₂_agree {rootPath : String} {sd : ScenDir} {rd : RunDir}
    (h : ∀ a : FileEnt,
      (avgSel₂ "ips" rd.entries = some a ∨ avgSel₂ "waf" rd.entries = some a) →
      a.isFile = true) :
    runOut₂ rootPath sd rd = .ok (runVal₂ rootPath sd rd) := by
  unfold runOut₂ runVal₂ processRun₂ processRunVal₂
  rw [cpuSlot_agree (fun a ha => h a (Or.inl ha)),
    cpuSlot_agree (fun a ha => h a (Or.inr ha))]

theorem scenOut₂_agree {rootPath : String} {sd : ScenDir}
    (h : ∀ rd ∈ sd.runs, ∀ a : FileEnt,
      (avgSel₂ "ips" rd.entries = some a ∨ avgSel₂ "waf" rd.entries = some a) →
      a.isFile = true) :
    scenOut₂ rootPath sd = .ok (scenVal₂ rootPath sd) := by
  unfold scenOut₂ scenVal₂
  exact exceptList_map_ok (fun rd hrd =>
    runOut₂_agree (h rd (List.mem_mergeSort.mp (List.mem_filter.mp hrd).1)))

/-- On trees where every name-selected CPU entry is a regular file, the
richer variant's walk raises nothing and produces its table. -/
theorem collect₂_agree {rootPath : String} {root : List ScenDir}
    (h : ∀ sd ∈ root, ∀ rd ∈ sd.runs, ∀ a : FileEnt,
      (avgSel₂ "ips" rd.entries = some a ∨ avgSel₂ "waf" rd.entries = some a) →
      a.isFile = true) :
    collect_results₂ rootPath root = .ok (collectVal₂ rootPath root) := by
  unfold collect_results₂ collectVal₂
  rw [exceptList_map_ok (fun sd hsd =>
    scenOut₂_agree (h sd (List.mem_mergeSort.mp (List.mem_filter.mp hsd).1)))]

/-- A tree whose run directories contain only regular files selects only
regular files. -/
theorem selFile_of_allFiles {root : List ScenDir}
    (h : ∀ sd ∈ root, ∀ rd ∈ sd.runs, ∀ f ∈ rd.entries, f.isFile = true) :
    ∀ sd' ∈ root, ∀ rd' ∈ sd'.runs, ∀ a : FileEnt,
      (avgSel₂ "ips" rd'.entries = some a ∨
       avgSel₂ "waf" rd'.entries = some a) → a.isFile = true := by
  intro sd' hsd' rd' hrd' a ha
  rcases ha with ha | ha
  · exact h sd' hsd' rd' hrd' a (loopLast_sat ha).2
  · exact h sd' hsd' rd' hrd' a (loopLast_sat ha).2

/-- C8: corrected.  A run directory with no wrk file still yields its row —
all load-test fields absent — with exactly one `*wrk*.txt` missing entry.
In the simpler variant (whose selection loops all test `is_file()`) this is
unconditional and every run of every scenario is recorded.  In the richer
variant it holds only on the exception-free path — whenever every entry its
name-only CPU loops select is a regular file; a selected directory makes
`Path.read_text` raise `IsADirectoryError`, the walk aborts, and no table is
produced at all (see the counterexample). -/
theorem claim_C8 (rootPath : String) (root : List ScenDir)
    {sd : ScenDir} {rd : RunDir}
    (hsd : sd ∈ root) (hsdd : sd.isDir = true)
    (hrd : rd ∈ sd.runs) (hrdd : rd.isDir = true)
    (hw1 : findFirst wrkPred₁ rd.entries = none)
    (hw2 : findFirst wrkPred₂ rd.entries = none)
    (hok : ∀ sd' ∈ root, ∀ rd' ∈ sd'.runs, ∀ a : FileEnt,
      (avgSel₂ "ips" rd'.entries = some a ∨
       avgSel₂ "waf" rd'.entries = some a) → a.isFile = true) :
    ((runOut₁ rootPath sd rd).1.requests_per_sec = none ∧
     (runOut₁ rootPath sd rd).1.p50 = none ∧
     (runOut₁ rootPath sd rd).1.p75 = none ∧
     (runOut₁ rootPath sd rd).1.p90 = none ∧
     (runOut₁ rootPath sd rd).1.p99 = none ∧
     (runOut₁ rootPath sd rd).1.raw_errors = none) ∧
    (runOut₁ rootPath sd rd).2.count
      (rootPath ++ "/" ++ sd.name ++ "/" ++ rd.name ++ "/*wrk*.txt") = 1 ∧
    (∀ sd' ∈ root, sd'.isDir = true → ∀ rd' ∈ sd'.runs, rd'.isDir = true →
      (runOut₁ rootPath sd' rd').1 ∈ (collect_results₁ rootPath root).1) ∧
    (runOut₂ rootPath sd rd = .ok (runVal₂ rootPath sd rd) ∧
     (runVal₂ rootPath sd rd).1.requests_per_sec = none ∧
     (runVal₂ rootPath sd rd).1.p50 = none ∧
     (runVal₂ rootPath sd rd).1.p75 = none ∧
     (runVal₂ rootPath sd rd).1.p90 = none ∧
     (runVal₂ rootPath sd rd).1.p99 = none ∧
     (runVal₂ rootPath sd rd).1.socket_errors = none ∧
     (runVal₂ rootPath sd rd).1.transfer_per_sec = none ∧
     (runVal₂ rootPath sd rd).1.wrk_file = none) ∧
    (runVal₂ rootPath sd rd).2.count
      (rootPath ++ "/" ++ sd.name ++ "/" ++ rd.name ++ "/*wrk*.txt") = 1 ∧
    (collect_results₂ rootPath root = .ok (collectVal₂ rootPath root) ∧
     ∀ sd' ∈ root, sd'.isDir = true → ∀ rd' ∈ sd'.runs, rd'.isDir = true →
       (runVal₂ rootPath sd' rd').1 ∈ (collectVal₂ rootPath root).1) := by
  refine ⟨?_, ?_,
    fun sd' hsd' hsdd' rd' hrd' hrdd' =>
      collect₁_row_mem rootPath root hsd' hsdd' hrd' hrdd',
    ⟨runOut₂_agree (hok sd hsd rd hrd), ?_⟩, ?_,
    ⟨collect₂_agree hok,
     fun sd' hsd' hsdd' rd' hrd' hrdd' =>
       collect₂_row_mem rootPath root hsd' hsdd' hrd' hrdd'⟩⟩
  · unfold runOut₁ processRun₁
    rw [hw1]
    simp
  · unfold runOut₁ processRun₁
    rw [hw1]
    simp only [List.count_append]
    rw [cpuSlot₁_count0, cpuSlot₁_count0]
    simp
  · unfold runVal₂ processRunVal₂
    rw [hw2]
    simp
  · unfold runVal₂ processRunVal₂
    rw [hw2]
    simp only [List.count_append]
    rw [cpuSlot_count0, cpuSlot_count0]
    simp

/-- C8 witness: a one-scenario, one-run tree whose run directory holds only
a non-wrk regular file: both variants record the wrk-missing entry and the
richer variant's walk succeeds with the run's row in the table. -/
theorem claim_C8_witness :
    (runOut₁ "/r" ⟨"S", true, [⟨"run 1", true, [⟨"a.txt", true, "x"⟩]⟩]⟩
      ⟨"run 1", true, [⟨"a.txt", true, "x"⟩]⟩).1.requests_per_sec = none ∧
    (runVal₂ "/r" ⟨"S", true, [⟨"run 1", true, [⟨"a.txt", true, "x"⟩]⟩]⟩
      ⟨"run 1", true, [⟨"a.txt", true, "x"⟩]⟩).2.count
        ("/r" ++ "/" ++ "S" ++ "/" ++ "run 1" ++ "/*wrk*.txt") = 1 ∧
    collect_results₂ "/r" [⟨"S", true, [⟨"run 1", true, [⟨"a.txt", true, "x"⟩]⟩]⟩]
      = .ok (collectVal₂ "/r"
        [⟨"S", true, [⟨"run 1", true, [⟨"a.txt", true, "x"⟩]⟩]⟩]) ∧
    (runVal₂ "/r" ⟨"S", true, [⟨"run 1", true, [⟨"a.txt", true, "x"⟩]⟩]⟩
      ⟨"run 1", true, [⟨"a.txt", true, "x"⟩]⟩).1 ∈
      (collectVal₂ "/r"
        [⟨"S", true, [⟨"run 1", true, [⟨"a.txt", true, "x"⟩]⟩]⟩]).1 := by
  have h := claim_C8 "/r"
    [⟨"S", true, [⟨"run 1", true, [⟨"a.txt", true, "x"⟩]⟩]⟩]
    (List.mem_singleton.mpr rfl) rfl (List.mem_singleton.mpr rfl) rfl rfl rfl
    (selFile_of_allFiles (by decide))
  exact ⟨h.1.1, h.2.2.2.2.1, h.2.2.2.2.2.1,
    h.2.2.2.2.2.2 _ (List.mem_singleton.mpr rfl) rfl _
      (List.mem_singleton.mpr rfl) rfl⟩

/-- C8 counterexample: a run directory that contains only a SUBDIRECTORY
named `avg_cpu_ips_old` — so it has no wrk file — makes the richer variant's
name-only CPU loop select the directory; `Path.read_text` raises
`IsADirectoryError` and the whole walk crashes: no table, no row, refuting
"a run with no wrk file is still recorded and prevents no other run". -/
theorem claim_C8_cex :
    findFirst wrkPred₂ [⟨"avg_cpu_ips_old", false, ""⟩] = none ∧
    collect_results₂ "/r" [⟨"S", true,
      [⟨"run 1", true, [⟨"avg_cpu_ips_old", false, ""⟩]⟩]⟩] = .error () := by
  refine ⟨rfl, ?_⟩
  have hscen : scenOut₂ "/r" ⟨"S", true,
      [⟨"run 1", true, [⟨"avg_cpu_ips_old", false, ""⟩]⟩]⟩ = .error () := by
    unfold scenOut₂
    rw [List.mergeSort_singleton]
    rfl
  have h2 : exceptList (List.map (scenOut₂ "/r")
      (List.filter (fun s => s.isDir) [⟨"S", true,
        [⟨"run 1", true, [⟨"avg_cpu_ips_old", false, ""⟩]⟩]⟩])) =
      Except.error () := by
    rw [show List.map (scenOut₂ "/r") (List.filter (fun s : ScenDir => s.isDir)
        [⟨"S", true, [⟨"run 1", true, [⟨"avg_cpu_ips_old", false, ""⟩]⟩]⟩]) =
      [scenOut₂ "/r" ⟨"S", true,
        [⟨"run 1", true, [⟨"avg_cpu_ips_old", false, ""⟩]⟩]⟩] from rfl, hscen]
    rfl
  simp only [collect_results₂]
  rw [List.mergeSort_singleton, h2]

/-! ### Engine head-composition toolkit

The lemmas below compute the committed (highest-priority) match of composite
patterns on structured inputs: when the greedy-first path succeeds, it is
the committed one. -/

theorem matchHead_eq (r : RE) (s : List Char) :
    matchHead r s = (mall r s).head?.map
      (fun p => ⟨s.take (s.length - p.2.length), p.1⟩) := by
  unfold matchHead
  cases mall r s with
  | nil => rfl
  | cons a t => rfl

theorem mall_cat_head {a b : RE} {s : List Char} {pa qb : Caps × List Char}
    (ha : (mall a s).head? = some pa) (hb : (mall b pa.2).head? = some qb) :
    (mall (.cat a b) s).head? = some (pa.1 ++ qb.1, qb.2) := by
  simp only [mall, List.head?_flatMap]
  rcases List.head?_eq_some_iff.mp ha with ⟨t, ht⟩
  rw [ht, List.findSome?_cons]
  rw [List.head?_map, hb]
  rfl

theorem mall_grp_head {r : RE} {s : List Char} {p : Caps × List Char}
    (h : (mall r s).head? = some p) (i : Nat) :
    (mall (.grp i r) s).head? =
      some ((i, s.take (s.length - p.2.length)) :: p.1, p.2) := by
  simp only [mall, List.head?_map, h]
  rfl

theorem mall_lit_head {ci : Bool} {w s r : List Char}
    (h : litMatch ci w s = some r) :
    (mall (.lit ci w) s).head? = some ([], r) := by
  simp [mall, h]

theorem mall_star_head (cl : CClass) (s : List Char) :
    (mall (.star cl) s).head? = some ([], s.drop (runLen cl s)) := by
  simp [mall, starAlts, List.range_succ]

theorem mall_plus_head {cl : CClass} {s : List Char} (h : 1 ≤ runLen cl s) :
    (mall (.plus cl) s).head? = some ([], s.drop (runLen cl s)) := by
  obtain ⟨n, hn⟩ : ∃ n, runLen cl s = n + 1 := ⟨runLen cl s - 1, by omega⟩
  simp only [mall]
  rw [hn]
  simp [List.range_succ]

theorem mall_opt_head_some {r : RE} {s : List Char} {p : Caps × List Char}
    (h : (mall r s).head? = some p) :
    (mall (.opt r) s).head? = some p := by
  simp only [mall, List.head?_append, h]
  rfl

theorem mall_opt_head_none {r : RE} {s : List Char} (h : mall r s = []) :
    (mall (.opt r) s).head? = some ([], s) := by
  simp [mall, h]

theorem mall_alt_head_left {a b : RE} {s : List Char} {p : Caps × List Char}
    (h : (mall a s).head? = some p) :
    (mall (.alt a b) s).head? = some p := by
  simp only [mall, List.head?_append, h]
  rfl

theorem mall_alt_head_right {a b : RE} {s : List Char} (h : mall a s = []) :
    (mall (.alt a b) s).head? = (mall b s).head? := by
  simp [mall, h]

theorem mall_lit_nil {ci : Bool} {w s : List Char}
    (h : litMatch ci w s = none) : mall (.lit ci w) s = [] := by
  simp [mall, h]

/-- `runLen` over a fully-in-class segment followed by an out-of-class (or
empty) remainder is the segment's length. -/
theorem runLen_append {cl : CClass} {D rest : List Char}
    (hD : D.all cl.mem = true)
    (hr : ∀ c, rest.head? = some c → cl.mem c = false) :
    runLen cl (D ++ rest) = D.length := by
  induction D with
  | nil =>
    simp only [List.nil_append, runLen, List.length_nil]
    cases rest with
    | nil => simp
    | cons c cs =>
      simp [List.takeWhile, hr c rfl]
  | cons d ds ih =>
    simp only [List.all_cons, Bool.and_eq_true] at hD
    simp only [List.cons_append, runLen, List.takeWhile, hD.1,
      List.length_cons]
    have h2 : (List.takeWhile cl.mem (ds.append rest)).length = ds.length := by
      have := ih hD.2
      simpa only [runLen] using this
    rw [h2]

/-- Greedy star: skip a fully-in-class segment and continue. -/
theorem star_skip {cl : CClass} {k : RE} {W rest : List Char}
    {q : Caps × List Char}
    (hW : W.all cl.mem = true)
    (hr : ∀ c, rest.head? = some c → cl.mem c = false)
    (hk : (mall k rest).head? = some q) :
    (mall (.cat (.star cl) k) (W ++ rest)).head? = some q := by
  have h1 : (mall (.star cl) (W ++ rest)).head? = some ([], rest) := by
    rw [mall_star_head, runLen_append hW hr, List.drop_left]
  have := mall_cat_head h1 hk
  simpa using this

/-- Consume a literal and continue. -/
theorem lit_skip {ci : Bool} {w s r : List Char} {k : RE}
    {q : Caps × List Char}
    (hlit : litMatch ci w s = some r) (hk : (mall k r).head? = some q) :
    (mall (.cat (.lit ci w) k) s).head? = some q := by
  have := mall_cat_head (mall_lit_head hlit) hk
  simpa using this

theorem mall_cat_nil_left {a b : RE} {s : List Char} (h : mall a s = []) :
    mall (.cat a b) s = [] := by
  simp [mall, h]

/-- Well-formed numeric literals `[0-9]+(\.[0-9]+)?`. -/
def numLitP (l : List Char) : Prop :=
  (l ≠ [] ∧ l.all Char.isDigit = true) ∨
  (∃ ip fp, l = ip ++ '.' :: fp ∧ ip ≠ [] ∧ fp ≠ [] ∧
    ip.all Char.isDigit = true ∧ fp.all Char.isDigit = true)

/-- The committed match of `[0-9]+(\.[0-9]+)?` on a numeric literal followed
by a non-numeric remainder consumes exactly the literal. -/
theorem numBody_head {N rest : List Char} (hN : numLitP N)
    (hr : ∀ c, rest.head? = some c → c.isDigit = false ∧ c ≠ '.') :
    (mall (.cat (.plus .digit)
      (.opt (.cat (reStr ".") (.plus .digit)))) (N ++ rest)).head? =
      some ([], rest) := by
  have hdig : ∀ c, rest.head? = some c → CClass.mem .digit c = false :=
    fun c hc => (hr c hc).1
  rcases hN with ⟨hne, hall⟩ | ⟨ip, fp, hN, hip, hfp, hips, hfps⟩
  · have hrl : runLen .digit (N ++ rest) = N.length := runLen_append hall hdig
    have h1 : (mall (.plus .digit) (N ++ rest)).head? = some ([], rest) := by
      rw [mall_plus_head (by
        rw [hrl]
        cases N with
        | nil => exact absurd rfl hne
        | cons a b => simp), hrl, List.drop_left]
    have h2 : (mall (.opt (.cat (reStr ".") (.plus .digit))) rest).head? =
        some ([], rest) := by
      apply mall_opt_head_none
      apply mall_cat_nil_left
      apply mall_lit_nil
      cases rest with
      | nil => rfl
      | cons c cs =>
        have := (hr c rfl).2
        simp only [reStr, litMatch]
        rw [if_neg]
        simp [charMatch]
        exact fun hc => this hc.symm
    have := mall_cat_head h1 h2
    simpa using this
  · subst hN
    have hrl : runLen .digit ((ip ++ '.' :: fp) ++ rest) = ip.length := by
      rw [List.append_assoc]
      apply runLen_append hips
      intro c hc
      simp only [List.cons_append, List.head?_cons, Option.some.injEq] at hc
      subst hc
      rfl
    have h1 : (mall (.plus .digit) ((ip ++ '.' :: fp) ++ rest)).head? =
        some ([], '.' :: (fp ++ rest)) := by
      rw [mall_plus_head (by
        rw [hrl]
        cases ip with
        | nil => exact absurd rfl hip
        | cons a b => simp), hrl, List.append_assoc, List.drop_left]
      simp
    have h2 : (mall (.opt (.cat (reStr ".") (.plus .digit)))
        ('.' :: (fp ++ rest))).head? = some ([], rest) := by
      have hlit : litMatch false ".".toList ('.' :: (fp ++ rest)) =
          some (fp ++ rest) := by
        simp [litMatch, charMatch]
      have hfrl : runLen .digit (fp ++ rest) = fp.length :=
        runLen_append hfps hdig
      have h3 : (mall (.plus .digit) (fp ++ rest)).head? = some ([], rest) := by
        rw [mall_plus_head (by
          rw [hfrl]
          cases fp with
          | nil => exact absurd rfl hfp
          | cons a b => simp), hfrl, List.drop_left]
      apply mall_opt_head_some
      exact lit_skip hlit h3
    have := mall_cat_head h1 h2
    simpa using this

/-- Length of a numeric literal is the consumed amount: committed capture of
`numGrp g` is exactly the literal. -/
theorem numGrp_head {g : Nat} {k : RE} {N rest : List Char}
    {q : Caps × List Char} (hN : numLitP N)
    (hr : ∀ c, rest.head? = some c → c.isDigit = false ∧ c ≠ '.')
    (hk : (mall k rest).head? = some q) :
    (mall (.cat (numGrp g) k) (N ++ rest)).head? =
      some ((g, N) :: q.1, q.2) := by
  have hbody := numBody_head hN hr
  have hgrp := mall_grp_head hbody g
  have hcapt : (N ++ rest).take ((N ++ rest).length - rest.length) = N := by
    simp only [List.length_append]
    have : N.length + rest.length - rest.length = N.length := by omega
    rw [this, List.take_left]
  rw [hcapt] at hgrp
  have := mall_cat_head hgrp hk
  simpa using this

/-- Same for a plain `([0-9]+)` group. -/
theorem natGrp_head {g : Nat} {k : RE} {D rest : List Char}
    {q : Caps × List Char} (hne : D ≠ []) (hall : D.all Char.isDigit = true)
    (hr : ∀ c, rest.head? = some c → CClass.mem .digit c = false)
    (hk : (mall k rest).head? = some q) :
    (mall (.cat (.grp g (.plus .digit)) k) (D ++ rest)).head? =
      some ((g, D) :: q.1, q.2) := by
  have hrl : runLen .digit (D ++ rest) = D.length := runLen_append hall hr
  have h1 : (mall (.plus .digit) (D ++ rest)).head? = some ([], rest) := by
    rw [mall_plus_head (by
      rw [hrl]
      cases D with
      | nil => exact absurd rfl hne
      | cons a b => simp), hrl, List.drop_left]
  have hgrp := mall_grp_head h1 g
  have hcapt : (D ++ rest).take ((D ++ rest).length - rest.length) = D := by
    simp only [List.length_append]
    have : D.length + rest.length - rest.length = D.length := by omega
    rw [this, List.take_left]
  rw [hcapt] at hgrp
  have := mall_cat_head hgrp hk
  simpa using this

/-! ### C5: convert_to_seconds -/

theorem digit_toLower {c : Char} (h : c.isDigit = true) : c.toLower = c := by
  simp only [Char.isDigit, Bool.and_eq_true, decide_eq_true_eq] at h
  have h2 : c.val.toNat ≤ 57 := h.2
  simp only [Char.toLower, Char.toNat]
  rw [if_neg]
  intro hc
  omega

theorem digit_not_space {c : Char} (h : c.isDigit = true) :
    isPySpace c = false := by
  by_contra hc
  simp only [Bool.not_eq_false, isPySpace, Bool.or_eq_true, decide_eq_true_eq]
    at hc
  rcases hc with ((((h1 | h1) | h1) | h1) | h1) | h1 <;>
    (subst h1; simp [Char.isDigit] at h)

theorem numLit_not_space {N : List Char} (hN : numLitP N) :
    ∀ c ∈ N, isPySpace c = false := by
  intro c hc
  rcases hN with ⟨_, hall⟩ | ⟨ip, fp, hEq, _, _, hips, hfps⟩
  · exact digit_not_space (List.all_eq_true.mp hall c hc)
  · subst hEq
    rcases List.mem_append.mp hc with h | h
    · exact digit_not_space (List.all_eq_true.mp hips _ h)
    · rcases List.mem_cons.mp h with h | h
      · subst h; rfl
      · exact digit_not_space (List.all_eq_true.mp hfps _ h)

theorem numLit_map_toLower {N : List Char} (hN : numLitP N) :
    N.map Char.toLower = N := by
  have h : ∀ c ∈ N, c.toLower = c := by
    intro c hc
    rcases hN with ⟨_, hall⟩ | ⟨ip, fp, hEq, _, _, hips, hfps⟩
    · exact digit_toLower (List.all_eq_true.mp hall c hc)
    · subst hEq
      rcases List.mem_append.mp hc with hm | hm
      · exact digit_toLower (List.all_eq_true.mp hips _ hm)
      · rcases List.mem_cons.mp hm with hm | hm
        · subst hm; rfl
        · exact digit_toLower (List.all_eq_true.mp hfps _ hm)
  clear hN
  induction N with
  | nil => rfl
  | cons a as ih =>
    simp only [List.map_cons, h a (List.mem_cons_self a as)]
    rw [ih (fun c hc => h c (List.mem_cons_of_mem a hc))]

theorem dropWhile_id {l : List Char} (h : ∀ c ∈ l, isPySpace c = false) :
    l.dropWhile isPySpace = l := by
  cases l with
  | nil => rfl
  | cons c cs => simp [List.dropWhile, h c (List.mem_cons_self c cs)]

theorem pyStrip_id {l : List Char} (h : ∀ c ∈ l, isPySpace c = false) :
    pyStrip l = l := by
  unfold pyStrip
  rw [dropWhile_id h,
    dropWhile_id (fun c hc => h c (List.mem_reverse.mp hc)),
    List.reverse_reverse]

/-- `convertCore` on a numeric literal followed by a unit tail, in terms of
the tail's committed match. -/
theorem convertCore_eq (ci toLow : Bool) (N u : List Char)
    {q : Caps × List Char} (hN : numLitP N)
    (hr : ∀ c, u.head? = some c → c.isDigit = false ∧ c ≠ '.')
    (hq : (mall (.cat (.star .pyspace)
      (.opt (.grp 2 (unitAlt ci)))) u).head? = some q) :
    convertCore ci toLow (N ++ u) =
      (let unit : List Char :=
        match capLookup 2 q.1 with
        | some x => if toLow then x.map Char.toLower else x
        | none => "s".toList
      if unit = "ms".toList then some (decToQ N / 1000)
      else if unit = "us".toList then some (decToQ N / 1000000)
      else some (decToQ N)) := by
  unfold convertCore
  rw [matchHead_eq]
  have hmain : (mall (convPat ci) (N ++ u)).head? =
      some ((1, N) :: q.1, q.2) := by
    have : convPat ci = .cat (numGrp 1)
        (.cat (.star .pyspace) (.opt (.grp 2 (unitAlt ci)))) := rfl
    rw [this]
    exact numGrp_head hN hr hq
  rw [hmain]
  simp only [Option.map_some, capLookup, List.find?]
  simp

/-- Units recognized with division by 1000 (`ms`, any case). -/
theorem conv_unit_ms (N u : List Char) (hN : numLitP N)
    (hu : u ∈ [['m','s'], ['m','S'], ['M','s'], ['M','S']]) :
    convert_to_seconds₁ (N ++ u) = some (decToQ N / 1000) ∧
    convert_to_seconds₂ (N ++ u) = some (decToQ N / 1000) := by
  have hns : ∀ c ∈ N, isPySpace c = false := numLit_not_space hN
  simp only [List.mem_cons, List.not_mem_nil, or_false] at hu
  rcases hu with h | h | h | h <;>
    exact ⟨by
      unfold convert_to_seconds₁
      rw [pyStrip_id (by
        intro c hc
        rcases List.mem_append.mp hc with hc | hc
        · exact hns c hc
        · rw [h] at hc; fin_cases hc <;> decide)]
      rw [convertCore_eq true true N u hN (by
        intro c hc
        rw [h] at hc
        simp only [List.head?_cons, Option.some.injEq] at hc
        subst hc
        exact ⟨by decide, by decide⟩)
        (show _ = some ([(2, u)], []) by rw [h]; rfl)]
      rw [h]
      rfl,
    by
      unfold convert_to_seconds₂
      rw [pyStrip_id (by
        intro c hc
        rcases List.mem_append.mp hc with hc | hc
        · exact hns c hc
        · rw [h] at hc; fin_cases hc <;> decide)]
      rw [List.map_append, numLit_map_toLower hN]
      rw [convertCore_eq false false N (u.map Char.toLower) hN (by
        intro c hc
        rw [h] at hc
        simp only [List.map_cons, List.map_nil, List.head?_cons,
          Option.some.injEq] at hc
        subst hc
        exact ⟨by decide, by decide⟩)
        (show _ = some ([(2, u.map Char.toLower)], []) by rw [h]; rfl)]
      rw [h]
      rfl⟩

/-- Units recognized with division by 1000000 (`us`, any case). -/
theorem conv_unit_us (N u : List Char) (hN : numLitP N)
    (hu : u ∈ [['u','s'], ['u','S'], ['U','s'], ['U','S']]) :
    convert_to_seconds₁ (N ++ u) = some (decToQ N / 1000000) ∧
    convert_to_seconds₂ (N ++ u) = some (decToQ N / 1000000) := by
  have hns : ∀ c ∈ N, isPySpace c = false := numLit_not_space hN
  simp only [List.mem_cons, List.not_mem_nil, or_false] at hu
  rcases hu with h | h | h | h <;>
    exact ⟨by
      unfold convert_to_seconds₁
      rw [pyStrip_id (by
        intro c hc
        rcases List.mem_append.mp hc with hc | hc
        · exact hns c hc
        · rw [h] at hc; fin_cases hc <;> decide)]
      rw [convertCore_eq true true N u hN (by
        intro c hc
        rw [h] at hc
        simp only [List.head?_cons, Option.some.injEq] at hc
        subst hc
        exact ⟨by decide, by decide⟩)
        (show _ = some ([(2, u)], []) by rw [h]; rfl)]
      rw [h]
      rfl,
    by
      unfold convert_to_seconds₂
      rw [pyStrip_id (by
        intro c hc
        rcases List.mem_append.mp hc with hc | hc
        · exact hns c hc
        · rw [h] at hc; fin_cases hc <;> decide)]
      rw [List.map_append, numLit_map_toLower hN]
      rw [convertCore_eq false false N (u.map Char.toLower) hN (by
        intro c hc
        rw [h] at hc
        simp only [List.map_cons, List.map_nil, List.head?_cons,
          Option.some.injEq] at hc
        subst hc
        exact ⟨by decide, by decide⟩)
        (show _ = some ([(2, u.map Char.toLower)], []) by rw [h]; rfl)]
      rw [h]
      rfl⟩

/-- Unit `s` (any case) leaves the value unchanged. -/
theorem conv_unit_s (N u : List Char) (hN : numLitP N)
    (hu : u ∈ [['s'], ['S']]) :
    convert_to_seconds₁ (N ++ u) = some (decToQ N) ∧
    convert_to_seconds₂ (N ++ u) = some (decToQ N) := by
  have hns : ∀ c ∈ N, isPySpace c = false := numLit_not_space hN
  simp only [List.mem_cons, List.not_mem_nil, or_false] at hu
  rcases hu with h | h <;>
    exact ⟨by
      unfold convert_to_seconds₁
      rw [pyStrip_id (by
        intro c hc
        rcases List.mem_append.mp hc with hc | hc
        · exact hns c hc
        · rw [h] at hc; fin_cases hc <;> decide)]
      rw [convertCore_eq true true N u hN (by
        intro c hc
        rw [h] at hc
        simp only [List.head?_cons, Option.some.injEq] at hc
        subst hc
        exact ⟨by decide, by decide⟩)
        (show _ = some ([(2, u)], []) by rw [h]; rfl)]
      rw [h]
      rfl,
    by
      unfold convert_to_seconds₂
      rw [pyStrip_id (by
        intro c hc
        rcases List.mem_append.mp hc with hc | hc
        · exact hns c hc
        · rw [h] at hc; fin_cases hc <;> decide)]
      rw [List.map_append, numLit_map_toLower hN]
      rw [convertCore_eq false false N (u.map Char.toLower) hN (by
        intro c hc
        rw [h] at hc
        simp only [List.map_cons, List.map_nil, List.head?_cons,
          Option.some.injEq] at hc
        subst hc
        exact ⟨by decide, by decide⟩)
        (show _ = some ([(2, u.map Char.toLower)], []) by rw [h]; rfl)]
      rw [h]
      rfl⟩

/-- No unit: the value is taken as seconds unchanged. -/
theorem conv_unit_none (N : List Char) (hN : numLitP N) :
    convert_to_seconds₁ N = some (decToQ N) ∧
    convert_to_seconds₂ N = some (decToQ N) := by
  have hns : ∀ c ∈ N, isPySpace c = false := numLit_not_space hN
  have hr : ∀ c : Char, ([] : List Char).head? = some c →
      c.isDigit = false ∧ c ≠ '.' := by intro c hc; simp at hc
  constructor
  · unfold convert_to_seconds₁
    rw [pyStrip_id hns]
    have h := convertCore_eq true true N [] hN hr
      (show (mall (.cat (.star .pyspace) (.opt (.grp 2 (unitAlt true))))
        []).head? = some ([], []) from rfl)
    rw [List.append_nil] at h
    rw [h]
    rfl
  · unfold convert_to_seconds₂
    rw [pyStrip_id hns, numLit_map_toLower hN]
    have h := convertCore_eq false false N [] hN hr
      (show (mall (.cat (.star .pyspace) (.opt (.grp 2 (unitAlt false))))
        []).head? = some ([], []) from rfl)
    rw [List.append_nil] at h
    rw [h]
    rfl

/-- C5: `convert_to_seconds` (both variants) maps "65.54ms" to 0.06554,
"1.04s" to 1.04, "200us" to 0.0002 and "" to absent; on a numeric literal
followed by a unit, `ms` (any case) divides by 1000, `us` (any case) by
1000000, and `s` (any case) or no unit leaves the value unchanged; and when
the numeric-prefix pattern fails to match and the plain float parse also
fails, the result is absent rather than an error. -/
theorem claim_C5 :
    (convert_to_seconds₁ "65.54ms".toList = some (6554 / 100000) ∧
     convert_to_seconds₂ "65.54ms".toList = some (6554 / 100000)) ∧
    (convert_to_seconds₁ "1.04s".toList = some (104 / 100) ∧
     convert_to_seconds₂ "1.04s".toList = some (104 / 100)) ∧
    (convert_to_seconds₁ "200us".toList = some (2 / 10000) ∧
     convert_to_seconds₂ "200us".toList = some (2 / 10000)) ∧
    (convert_to_seconds₁ "".toList = none ∧
     convert_to_seconds₂ "".toList = none) ∧
    (∀ N u, numLitP N → u ∈ [['m','s'], ['m','S'], ['M','s'], ['M','S']] →
      convert_to_seconds₁ (N ++ u) = some (decToQ N / 1000) ∧
      convert_to_seconds₂ (N ++ u) = some (decToQ N / 1000)) ∧
    (∀ N u, numLitP N → u ∈ [['u','s'], ['u','S'], ['U','s'], ['U','S']] →
      convert_to_seconds₁ (N ++ u) = some (decToQ N / 1000000) ∧
      convert_to_seconds₂ (N ++ u) = some (decToQ N / 1000000)) ∧
    (∀ N u, numLitP N → u ∈ [['s'], ['S']] →
      convert_to_seconds₁ (N ++ u) = some (decToQ N) ∧
      convert_to_seconds₂ (N ++ u) = some (decToQ N)) ∧
    (∀ N, numLitP N →
      convert_to_seconds₁ N = some (decToQ N) ∧
      convert_to_seconds₂ N = some (decToQ N)) ∧
    (∀ s, matchHead (convPat true) (pyStrip s) = none →
      pyFloat (pyStrip s) = none → convert_to_seconds₁ s = none) ∧
    (∀ s, matchHead (convPat false) ((pyStrip s).map Char.toLower) = none →
      pyFloat ((pyStrip s).map Char.toLower) = none →
      convert_to_seconds₂ s = none) := by
  have hN6554 : numLitP "65.54".toList :=
    Or.inr ⟨"65".toList, "54".toList, rfl, by decide, by decide, by decide,
      by decide⟩
  have hN104 : numLitP "1.04".toList :=
    Or.inr ⟨"1".toList, "04".toList, rfl, by decide, by decide, by decide,
      by decide⟩
  have hN200 : numLitP "200".toList := Or.inl ⟨by decide, by decide⟩
  have hd6554 : decToQ "65.54".toList = (65 : ℚ) + 54 / 10 ^ 2 := rfl
  have hd104 : decToQ "1.04".toList = (1 : ℚ) + 4 / 10 ^ 2 := rfl
  have hd200 : decToQ "200".toList = (200 : ℚ) := rfl
  refine ⟨⟨?_, ?_⟩, ⟨?_, ?_⟩, ⟨?_, ?_⟩, ⟨rfl, rfl⟩,
    conv_unit_ms, conv_unit_us, conv_unit_s, conv_unit_none, ?_, ?_⟩
  · rw [show "65.54ms".toList = "65.54".toList ++ ['m','s'] from rfl,
      (conv_unit_ms "65.54".toList ['m','s'] hN6554 (by simp)).1, hd6554]
    norm_num
  · rw [show "65.54ms".toList = "65.54".toList ++ ['m','s'] from rfl,
      (conv_unit_ms "65.54".toList ['m','s'] hN6554 (by simp)).2, hd6554]
    norm_num
  · rw [show "1.04s".toList = "1.04".toList ++ ['s'] from rfl,
      (conv_unit_s "1.04".toList ['s'] hN104 (by simp)).1, hd104]
    norm_num
  · rw [show "1.04s".toList = "1.04".toList ++ ['s'] from rfl,
      (conv_unit_s "1.04".toList ['s'] hN104 (by simp)).2, hd104]
    norm_num
  · rw [show "200us".toList = "200".toList ++ ['u','s'] from rfl,
      (conv_unit_us "200".toList ['u','s'] hN200 (by simp)).1, hd200]
    norm_num
  · rw [show "200us".toList = "200".toList ++ ['u','s'] from rfl,
      (conv_unit_us "200".toList ['u','s'] hN200 (by simp)).2, hd200]
    norm_num
  · intro s h1 h2
    unfold convert_to_seconds₁ convertCore
    rw [h1, h2]
  · intro s h1 h2
    unfold convert_to_seconds₂ convertCore
    rw [h1, h2]

/-- C5 witness: instantiation of the unit-handling clauses at "2ms", and of
the failure clause at "abc". -/
theorem claim_C5_witness :
    convert_to_seconds₁ ("2".toList ++ ['m','s']) = some (decToQ "2".toList / 1000) ∧
    convert_to_seconds₁ "abc".toList = none := by
  constructor
  · exact (claim_C5.2.2.2.2.1 "2".toList ['m','s']
      (Or.inl ⟨by decide, by decide⟩) (by simp)).1
  · exact claim_C5.2.2.2.2.2.2.2.2.1 "abc".toList rfl rfl

/-! ### C1: parse_avg_cpu_file on the canonical template -/

theorem litMatch_suffix {ci : Bool} : ∀ {w s r : List Char},
    litMatch ci w s = some r → r <:+ s := by
  intro w
  induction w with
  | nil =>
    intro s r h
    simp only [litMatch, Option.some.injEq] at h
    exact h ▸ List.suffix_refl s
  | cons a as ih =>
    intro s r h
    cases s with
    | nil => exact absurd h (by simp [litMatch])
    | cons b bs =>
      simp only [litMatch] at h
      split at h
      · exact (ih h).trans (List.suffix_cons b bs)
      · exact absurd h (by simp)

/-- Every alternative's unconsumed rest is a suffix of the input. -/
theorem mall_rest_suffix {r : RE} : ∀ {s : List Char} {q : Caps × List Char},
    q ∈ mall r s → q.2 <:+ s := by
  induction r with
  | eps =>
    intro s q h
    simp only [mall, List.mem_singleton] at h
    subst h
    exact List.suffix_refl s
  | lit ci l =>
    intro s q h
    simp only [mall] at h
    cases hl : litMatch ci l s with
    | none => rw [hl] at h; simp at h
    | some r' =>
      rw [hl] at h
      simp only [List.mem_singleton] at h
      subst h
      exact litMatch_suffix hl
  | one c =>
    intro s q h
    cases s with
    | nil => simp [mall] at h
    | cons x xs =>
      simp only [mall] at h
      split at h
      · simp only [List.mem_singleton] at h
        subst h
        exact List.suffix_cons x xs
      · simp at h
  | star c =>
    intro s q h
    simp only [mall, List.mem_map, starAlts] at h
    obtain ⟨t, ⟨i, _, hi⟩, hq⟩ := h
    subst hq
    exact hi ▸ List.drop_suffix i s
  | plus c =>
    intro s q h
    simp only [mall, List.mem_map] at h
    obtain ⟨t, ⟨i, _, hi⟩, hq⟩ := h
    subst hq
    exact hi ▸ List.drop_suffix (i + 1) s
  | opt r ih =>
    intro s q h
    simp only [mall, List.mem_append, List.mem_singleton] at h
    rcases h with h | h
    · exact ih h
    · subst h; exact List.suffix_refl s
  | alt a b iha ihb =>
    intro s q h
    simp only [mall, List.mem_append] at h
    rcases h with h | h
    · exact iha h
    · exact ihb h
  | cat a b iha ihb =>
    intro s q h
    simp only [mall, List.mem_flatMap, List.mem_map] at h
    obtain ⟨p, hp, qb, hqb, hq⟩ := h
    subst hq
    exact (ihb hqb).trans (iha hp)
  | grp i r ih =>
    intro s q h
    simp only [mall, List.mem_map] at h
    obtain ⟨p, hp, hq⟩ := h
    subst hq
    have hs := ih hp
    exact hs

/-- A concatenation is dead when the continuation is dead on every suffix. -/
theorem dead_cat_all {a k : RE} {s : List Char}
    (h : ∀ t, t <:+ s → mall k t = []) : mall (.cat a k) s = [] := by
  simp only [mall]
  rw [List.flatMap_eq_nil_iff]
  intro p hp
  rw [h p.2 (mall_rest_suffix hp)]
  rfl

/-- Consume a literal, then dead. -/
theorem dead_cat_lit {ci : Bool} {w s r : List Char} {k : RE}
    (h : litMatch ci w s = some r) (hk : mall k r = []) :
    mall (.cat (.lit ci w) k) s = [] := by
  simp [mall, h, hk]

theorem runLen_zero {cl : CClass} {s : List Char}
    (h : ∀ c, s.head? = some c → cl.mem c = false) : runLen cl s = 0 := by
  cases s with
  | nil => rfl
  | cons c cs => simp [runLen, List.takeWhile, h c rfl]

theorem mall_star_zero {cl : CClass} {s : List Char} (h : runLen cl s = 0) :
    mall (.star cl) s = [([], s)] := by
  simp [mall, h, starAlts, show List.range 1 = [0] from rfl]

/-- A star whose class rejects the head contributes nothing; dead continuation
at the same point kills the concatenation. -/
theorem dead_cat_star0 {cl : CClass} {k : RE} {s : List Char}
    (h0 : ∀ c, s.head? = some c → cl.mem c = false) (hk : mall k s = []) :
    mall (.cat (.star cl) k) s = [] := by
  simp only [mall]
  rw [runLen_zero h0]
  simp [starAlts, show List.range 1 = [0] from rfl, hk]

/-- A continuation starting with a literal is dead when the first pattern
character cannot match the head of the input. -/
theorem dead_litk {ci : Bool} {a : Char} {w : List Char} {k : RE} {t : List Char}
    (h : ∀ c, t.head? = some c → charMatch ci a c = false) :
    mall (.cat (.lit ci (a :: w)) k) t = [] := by
  apply mall_cat_nil_left
  apply mall_lit_nil
  cases t with
  | nil => rfl
  | cons c cs => simp [litMatch, h c rfl]

theorem litMatch_cancel (ci : Bool) : ∀ (w r : List Char),
    litMatch ci w (w ++ r) = some r := by
  intro w r
  induction w with
  | nil => rfl
  | cons a as ih =>
    have hc : charMatch ci a a = true := by cases ci <;> simp [charMatch]
    simp only [List.cons_append, litMatch, hc, if_true]
    exact ih

/-- A case-insensitive literal head fails against a digit-or-dot input head
when the pattern character is neither. -/
theorem charMatch_true_head {a c : Char} (hc : c.isDigit = true ∨ c = '.')
    (h2 : a.toLower.isDigit = false) (h4 : a.toLower ≠ '.') :
    charMatch true a c = false := by
  have he : charMatch true a c = decide (a.toLower = c.toLower) := rfl
  rw [he, decide_eq_false_iff_not]
  intro h
  rcases hc with hc | hc
  · rw [digit_toLower hc] at h
    rw [h, hc] at h2
    exact Bool.noConfusion h2
  · subst hc
    rw [show ('.' : Char).toLower = '.' from rfl] at h
    exact h4 h

/-- Characters of a numeric literal are digits or the dot. -/
theorem numLit_mem {N : List Char} (hN : numLitP N) {c : Char} (hc : c ∈ N) :
    c.isDigit = true ∨ c = '.' := by
  rcases hN with ⟨_, hall⟩ | ⟨ip, fp, hN, _, _, hips, hfps⟩
  · simp only [List.all_eq_true] at hall
    exact Or.inl (hall c hc)
  · subst hN
    simp only [List.all_eq_true] at hips hfps
    rcases List.mem_append.mp hc with h | h
    · exact Or.inl (hips c h)
    · rcases List.mem_cons.mp h with h | h
      · exact Or.inr h
      · exact Or.inl (hfps c h)

theorem suffix_append_cases {t X Y : List Char} (h : t <:+ X ++ Y) :
    t <:+ Y ∨ ∃ w, w <:+ X ∧ w ≠ [] ∧ t = w ++ Y := by
  induction X with
  | nil => exact Or.inl h
  | cons x xs ih =>
    rw [List.cons_append, List.suffix_cons_iff] at h
    rcases h with h | h
    · exact Or.inr ⟨x :: xs, List.suffix_refl _, by simp, by rw [h, List.cons_append]⟩
    · rcases ih h with h' | ⟨w, h1, h2, h3⟩
      · exact Or.inl h'
      · exact Or.inr ⟨w, h1.trans (List.suffix_cons x xs), h2, h3⟩

theorem starAlts_succ (k : Nat) (c : Char) (t : List Char) :
    starAlts (k + 1) (c :: t) = starAlts k t ++ [c :: t] := by
  simp only [starAlts]
  rw [show k + 1 + 1 = (k + 1) + 1 from rfl, List.range_succ_eq_map,
    List.reverse_cons, List.map_append]
  simp [List.map_reverse, List.map_map, Function.comp]

theorem runLen_any (s : List Char) : runLen .any s = s.length := by
  induction s with
  | nil => rfl
  | cons c cs ih =>
    simp only [runLen, List.takeWhile, CClass.mem, List.length_cons] at ih ⊢
    omega

theorem mapCapsEta (l : List (Caps × List Char)) :
    l.map (fun q => (([] : Caps) ++ q.1, q.2)) = l := by
  induction l with
  | nil => rfl
  | cons a t ih => simp [ih]

/-- `.*` followed by `k`: the alternatives are exactly `k` run on each suffix,
longest-consumed (deepest suffix) first. -/
theorem starAny_cat_eq (k : RE) (s : List Char) :
    mall (.cat (.star .any) k) s =
      (starAlts s.length s).flatMap (fun r => mall k r) := by
  simp only [mall, runLen_any]
  generalize starAlts s.length s = L
  induction L with
  | nil => rfl
  | cons a t ih =>
    simp only [List.map_cons, List.flatMap_cons, ih, mapCapsEta]

/-- The committed alternative of `.*` `k`: scan suffixes deepest-first. -/
def viaFirst (k : RE) : List Char → Option (Caps × List Char)
  | [] => (mall k []).head?
  | c :: t => (viaFirst k t).or (mall k (c :: t)).head?

theorem starAny_cat_head (k : RE) (s : List Char) :
    (mall (.cat (.star .any) k) s).head? = viaFirst k s := by
  rw [starAny_cat_eq, List.head?_flatMap]
  induction s with
  | nil =>
    show List.findSome? _ (starAlts 0 []) = (mall k []).head?
    cases h : (mall k ([] : List Char)).head? <;>
      simp [starAlts, show List.range 1 = [0] from rfl, List.findSome?, h]
  | cons c t ih =>
    rw [show (c :: t).length = t.length + 1 from rfl, starAlts_succ,
      List.findSome?_append, ih]
    show _ = (viaFirst k t).or (mall k (c :: t)).head?
    cases h : (mall k (c :: t)).head? <;> simp [List.findSome?, h]

theorem viaFirst_none {k : RE} {t : List Char}
    (h : ∀ u, u <:+ t → mall k u = []) : viaFirst k t = none := by
  induction t with
  | nil =>
    show (mall k []).head? = none
    rw [h [] List.nil_suffix]
    rfl
  | cons c u ih =>
    show (viaFirst k u).or (mall k (c :: u)).head? = none
    rw [ih (fun v hv => h v (hv.trans (List.suffix_cons c u))),
      h (c :: u) (List.suffix_refl _)]
    rfl

theorem viaFirst_append_dead {k : RE} {A B : List Char}
    (h : ∀ w, w <:+ A → w ≠ [] → mall k (w ++ B) = []) :
    viaFirst k (A ++ B) = viaFirst k B := by
  induction A with
  | nil => rfl
  | cons a A' ih =>
    rw [List.cons_append]
    show (viaFirst k (A' ++ B)).or (mall k (a :: (A' ++ B))).head? = _
    rw [show a :: (A' ++ B) = (a :: A') ++ B from rfl,
      h (a :: A') (List.suffix_refl _) (by simp)]
    show (viaFirst k (A' ++ B)).or none = _
    rw [Option.or_none]
    exact ih (fun w hw hne => h w (hw.trans (List.suffix_cons a A')) hne)

theorem viaFirst_base {k : RE} {B : List Char}
    (h : ∀ t, t <:+ B → t ≠ B → mall k t = []) :
    viaFirst k B = (mall k B).head? := by
  cases B with
  | nil => rfl
  | cons c t =>
    show (viaFirst k t).or (mall k (c :: t)).head? = _
    rw [viaFirst_none (fun u hu =>
      h u (hu.trans (List.suffix_cons c t)) (by
        intro he
        have := hu.length_le
        rw [he] at this
        simp at this))]
    exact Option.none_or

/-- Greedy `.*`: the committed match lands on the deepest suffix at which the
continuation is viable.  `A ++ B` with the continuation dead strictly inside
`B` and on every nonempty suffix of `A` extended by `B` commits at `B`. -/
theorem starAny_skipTo {k : RE} {A B : List Char} {q : Caps × List Char}
    (hA : ∀ w, w <:+ A → w ≠ [] → mall k (w ++ B) = [])
    (hB : ∀ t, t <:+ B → t ≠ B → mall k t = [])
    (hq : (mall k B).head? = some q) :
    (mall (.cat (.star .any) k) (A ++ B)).head? = some q := by
  rw [starAny_cat_head, viaFirst_append_dead hA, viaFirst_base hB, hq]

/-! The suffix chain of `patAvgRich`, named from the tail up.  `kX` is the
pattern remaining to be matched from element `X` on. -/

def kSamp : RE := .cat (.star .pyspace) (reStrCI "samples")
def kNum3 : RE := .cat (.grp 3 (.plus .digit)) kSamp
def kSp3 : RE := .cat (.star .pyspace) kNum3
def kOver : RE := .cat (reStrCI "over") kSp3
def kStar3 : RE := .cat (.star .any) kOver
def kPct2 : RE := .cat (reStrCI "%") kStar3
def kSp2b : RE := .cat (.star .pyspace) kPct2
def kNum2 : RE := .cat (numGrp 2) kSp2b
def kSp2a : RE := .cat (.star .pyspace) kNum2
def kEq2 : RE := .cat (reStrCI "=") kSp2a
def kSp2 : RE := .cat (.star .pyspace) kEq2
def kIdle : RE := .cat (reStrCI "avg idle") kSp2
def kStar2 : RE := .cat (.star .any) kIdle
def kPct1 : RE := .cat (reStrCI "%") kStar2
def kSp1b : RE := .cat (.star .pyspace) kPct1
def kNum1 : RE := .cat (numGrp 1) kSp1b
def kSp1a : RE := .cat (.star .pyspace) kNum1
def kEq1 : RE := .cat (reStrCI "=") kSp1a
def kStar1 : RE := .cat (.star .any) kEq1

theorem patAvgRich_eq : patAvgRich = .cat (reStrCI "AVG busy") kStar1 := rfl

/-- The canonical CPU-log line emitted by the measurement scripts, with the
numeric fields abstracted. -/
def cpuTemplate (B I S : List Char) : List Char :=
  "AVG busy (all cpus) = ".toList ++ B ++ " % (avg idle=".toList ++ I ++
    "%) over ".toList ++ S ++ " samples\n".toList

theorem dead_of_tails {k : RE} {L : List Char}
    (h : ∀ t ∈ L.tails, mall k t = []) :
    ∀ t, t <:+ L → mall k t = [] :=
  fun t ht => h t ((List.mem_tails t L).mpr ht)

theorem dead_litk_cons {ci : Bool} {a : Char} {w : List Char} {k : RE}
    {c : Char} {cs : List Char} (h : charMatch ci a c = false) :
    mall (.cat (.lit ci (a :: w)) k) (c :: cs) = [] := by
  apply dead_litk
  intro d hd
  simp only [List.head?_cons, Option.some.injEq] at hd
  subst hd
  exact h

theorem head_notMatch {a : Char} {L : List Char} {c : Char}
    (hall : L.all (fun d => !(charMatch true a d)) = true) (hc : c ∈ L) :
    charMatch true a c = false := by
  simp only [List.all_eq_true] at hall
  have h2 := hall c hc
  cases h3 : charMatch true a c
  · rfl
  · rw [h3] at h2
    exact absurd h2 (by decide)

theorem head_eq_of {a d : Char} {Y : List Char}
    (h : (a :: Y).head? = some d) : d = a := by
  simp only [List.head?_cons, Option.some.injEq] at h
  exact h.symm

theorem numLit_head_digit {N r : List Char} (hN : numLitP N) :
    ∀ c, (N ++ r).head? = some c → c.isDigit = true := by
  intro c hc
  rcases hN with ⟨hne, hall⟩ | ⟨ip, fp, hNe, hip, _, hips, _⟩
  · cases N with
    | nil => exact absurd rfl hne
    | cons d ds =>
      simp only [List.cons_append, List.head?_cons, Option.some.injEq] at hc
      subst hc
      simp only [List.all_cons, Bool.and_eq_true] at hall
      exact hall.1
  · subst hNe
    cases ip with
    | nil => exact absurd rfl hip
    | cons d ds =>
      simp only [List.cons_append, List.head?_cons, Option.some.injEq] at hc
      subst hc
      simp only [List.all_cons, Bool.and_eq_true] at hips
      exact hips.1

theorem numhead_not_space {c : Char} (h : c.isDigit = true ∨ c = '.') :
    isPySpace c = false := by
  rcases h with h | h
  · exact digit_not_space h
  · subst h
    decide

/-- `avg idle` (the continuation of the inner `.*`) matches at no suffix of
`") over " ++ S ++ " samples\n"`. -/
theorem c1_dead_idle {S : List Char} (hSd : S.all Char.isDigit = true) :
    ∀ t, t <:+ ") over ".toList ++ (S ++ " samples\n".toList) →
      mall kIdle t = [] := by
  intro t ht
  rcases suffix_append_cases ht with ht | ⟨w, hw, hne, rfl⟩
  · rcases suffix_append_cases ht with ht | ⟨w, hw, hne, rfl⟩
    · exact dead_of_tails (by decide) t ht
    · cases w with
      | nil => exact absurd rfl hne
      | cons c cs =>
        rw [List.cons_append]
        refine dead_litk_cons (charMatch_true_head (Or.inl ?_) (by decide) (by decide))
        simp only [List.all_eq_true] at hSd
        exact hSd c (hw.subset (List.mem_cons_self c cs))
  · cases w with
    | nil => exact absurd rfl hne
    | cons c cs =>
      rw [List.cons_append]
      exact dead_litk_cons
        (head_notMatch (by decide) (hw.subset (List.mem_cons_self c cs)))

/-- Likewise for the `%` continuation after the busy capture. -/
theorem c1_dead_pct {S : List Char} (hSd : S.all Char.isDigit = true) :
    ∀ t, t <:+ ") over ".toList ++ (S ++ " samples\n".toList) →
      mall kPct1 t = [] := by
  intro t ht
  rcases suffix_append_cases ht with ht | ⟨w, hw, hne, rfl⟩
  · rcases suffix_append_cases ht with ht | ⟨w, hw, hne, rfl⟩
    · exact dead_of_tails (by decide) t ht
    · cases w with
      | nil => exact absurd rfl hne
      | cons c cs =>
        rw [List.cons_append]
        refine dead_litk_cons (charMatch_true_head (Or.inl ?_) (by decide) (by decide))
        simp only [List.all_eq_true] at hSd
        exact hSd c (hw.subset (List.mem_cons_self c cs))
  · cases w with
    | nil => exact absurd rfl hne
    | cons c cs =>
      rw [List.cons_append]
      exact dead_litk_cons
        (head_notMatch (by decide) (hw.subset (List.mem_cons_self c cs)))

theorem c1_dead_sp1b {S : List Char} (hSd : S.all Char.isDigit = true) :
    ∀ t, t <:+ ") over ".toList ++ (S ++ " samples\n".toList) →
      mall kSp1b t = [] :=
  fun t ht => dead_cat_all (fun u hu => c1_dead_pct hSd u (hu.trans ht))

/-- The spurious `=` inside `avg idle=` is a dead end for the whole
continuation of the first `.*`: after it captures `I` and passes `%`, the
inner `.*` finds no `avg idle` in the remaining text. -/
theorem c1_deep {I S : List Char} (hI : numLitP I)
    (hSd : S.all Char.isDigit = true) :
    mall kEq1 ('=' :: (I ++ ('%' ::
      (") over ".toList ++ (S ++ " samples\n".toList))))) = [] := by
  have hHI : ∀ t, t <:+ I ++ ('%' ::
      (") over ".toList ++ (S ++ " samples\n".toList))) → mall kSp1b t = [] := by
    intro t ht
    rcases suffix_append_cases ht with ht | ⟨w, hw, hne, rfl⟩
    · rw [List.suffix_cons_iff] at ht
      rcases ht with rfl | ht
      · refine dead_cat_star0 (fun d hd => by rw [head_eq_of hd]; decide) ?_
        refine dead_cat_lit (litMatch_cancel true "%".toList _) ?_
        exact dead_cat_all (fun u hu => c1_dead_idle hSd u hu)
      · exact c1_dead_sp1b hSd t ht
    · cases w with
      | nil => exact absurd rfl hne
      | cons c cs =>
        have hmem : c.isDigit = true ∨ c = '.' :=
          numLit_mem hI (hw.subset (List.mem_cons_self c cs))
        rw [List.cons_append]
        refine dead_cat_star0 (fun d hd => by rw [head_eq_of hd]; exact numhead_not_space hmem) ?_
        exact dead_litk_cons (charMatch_true_head hmem (by decide) (by decide))
  refine dead_cat_lit (litMatch_cancel true "=".toList _) ?_
  refine dead_cat_star0 (fun d hd =>
    digit_not_space (numLit_head_digit hI d hd)) ?_
  exact dead_cat_all hHI

theorem digits_mem {S : List Char} (hSd : S.all Char.isDigit = true) {c : Char}
    (hc : c ∈ S) : c.isDigit = true ∨ c = '.' := by
  simp only [List.all_eq_true] at hSd
  exact Or.inl (hSd c hc)

theorem dead_litk_num {a : Char} {as : List Char} {k : RE} {X : List Char}
    {c : Char} {cs : List Char}
    (hmem : c.isDigit = true ∨ c = '.')
    (h2 : a.toLower.isDigit = false) (h4 : a.toLower ≠ '.') :
    mall (.cat (.lit true (a :: as)) k) ((c :: cs) ++ X) = [] := by
  rw [List.cons_append]
  exact dead_litk_cons (charMatch_true_head hmem h2 h4)

theorem dead_litk_seg {a : Char} {as : List Char} {k : RE} {L X : List Char}
    {c : Char} {cs : List Char}
    (hall : L.all (fun d => !(charMatch true a d)) = true)
    (hw : (c :: cs) <:+ L) :
    mall (.cat (.lit true (a :: as)) k) ((c :: cs) ++ X) = [] := by
  rw [List.cons_append]
  exact dead_litk_cons (head_notMatch hall (hw.subset (List.mem_cons_self c cs)))

/-- The continuation of the first `.*` (`=` on) is dead at every suffix of
the template strictly beyond the first `=`. -/
theorem c1_D1 {B I S : List Char} (hB : numLitP B) (hI : numLitP I)
    (hSd : S.all Char.isDigit = true) :
    ∀ t, t <:+ ' ' :: (B ++ (" % (avg idle".toList ++ ('=' :: (I ++ ('%' ::
      (") over ".toList ++ (S ++ " samples\n".toList))))))) →
      mall kEq1 t = [] := by
  intro t ht
  rw [List.suffix_cons_iff] at ht
  rcases ht with rfl | ht
  · exact dead_litk_cons (by decide)
  rcases suffix_append_cases ht with ht | ⟨w, hw, hne, rfl⟩
  · rcases suffix_append_cases ht with ht | ⟨w, hw, hne, rfl⟩
    · rw [List.suffix_cons_iff] at ht
      rcases ht with rfl | ht
      · exact c1_deep hI hSd
      rcases suffix_append_cases ht with ht | ⟨w, hw, hne, rfl⟩
      · rw [List.suffix_cons_iff] at ht
        rcases ht with rfl | ht
        · exact dead_litk_cons (by decide)
        rcases suffix_append_cases ht with ht | ⟨w, hw, hne, rfl⟩
        · rcases suffix_append_cases ht with ht | ⟨w, hw, hne, rfl⟩
          · exact dead_of_tails (by decide) t ht
          · cases w with
            | nil => exact absurd rfl hne
            | cons c cs =>
              exact dead_litk_num
                (digits_mem hSd (hw.subset (List.mem_cons_self c cs)))
                (by decide) (by decide)
        · cases w with
          | nil => exact absurd rfl hne
          | cons c cs => exact dead_litk_seg (by decide) hw
      · cases w with
        | nil => exact absurd rfl hne
        | cons c cs =>
          exact dead_litk_num
            (numLit_mem hI (hw.subset (List.mem_cons_self c cs)))
            (by decide) (by decide)
    · cases w with
      | nil => exact absurd rfl hne
      | cons c cs => exact dead_litk_seg (by decide) hw
  · cases w with
    | nil => exact absurd rfl hne
    | cons c cs =>
      exact dead_litk_num
        (numLit_mem hB (hw.subset (List.mem_cons_self c cs)))
        (by decide) (by decide)

/-- The continuation of the inner `.*` (`avg idle` on) is dead at every
suffix strictly beyond the real `avg idle` occurrence. -/
theorem c1_B2dead {I S : List Char} (hI : numLitP I)
    (hSd : S.all Char.isDigit = true) :
    ∀ t, t <:+ "vg idle".toList ++ ('=' :: (I ++ ('%' ::
      (") over ".toList ++ (S ++ " samples\n".toList))))) →
      mall kIdle t = [] := by
  intro t ht
  rcases suffix_append_cases ht with ht | ⟨w, hw, hne, rfl⟩
  · rw [List.suffix_cons_iff] at ht
    rcases ht with rfl | ht
    · exact dead_litk_cons (by decide)
    rcases suffix_append_cases ht with ht | ⟨w, hw, hne, rfl⟩
    · rw [List.suffix_cons_iff] at ht
      rcases ht with rfl | ht
      · exact dead_litk_cons (by decide)
      · exact c1_dead_idle hSd t ht
    · cases w with
      | nil => exact absurd rfl hne
      | cons c cs =>
        exact dead_litk_num
          (numLit_mem hI (hw.subset (List.mem_cons_self c cs)))
          (by decide) (by decide)
  · cases w with
    | nil => exact absurd rfl hne
    | cons c cs => exact dead_litk_seg (by decide) hw

/-- The continuation of the last `.*` (`over` on) is dead at every suffix
strictly beyond the real `over` occurrence. -/
theorem c1_B3dead {S : List Char} (hSd : S.all Char.isDigit = true) :
    ∀ t, t <:+ "ver".toList ++ (' ' :: (S ++ " samples\n".toList)) →
      mall kOver t = [] := by
  intro t ht
  rcases suffix_append_cases ht with ht | ⟨w, hw, hne, rfl⟩
  · rw [List.suffix_cons_iff] at ht
    rcases ht with rfl | ht
    · exact dead_litk_cons (by decide)
    rcases suffix_append_cases ht with ht | ⟨w, hw, hne, rfl⟩
    · exact dead_of_tails (by decide) t ht
    · cases w with
      | nil => exact absurd rfl hne
      | cons c cs =>
        exact dead_litk_num
          (digits_mem hSd (hw.subset (List.mem_cons_self c cs)))
          (by decide) (by decide)
  · cases w with
    | nil => exact absurd rfl hne
    | cons c cs => exact dead_litk_seg (by decide) hw

theorem star_skip0 {cl : CClass} {k : RE} {s : List Char}
    {q : Caps × List Char}
    (hr : ∀ c, s.head? = some c → cl.mem c = false)
    (hk : (mall k s).head? = some q) :
    (mall (.cat (.star cl) k) s).head? = some q := by
  have h1 : (mall (.star cl) s).head? = some ([], s) := by
    rw [mall_star_head, runLen_zero hr]
    rfl
  have h2 := mall_cat_head h1 hk
  simpa using h2

set_option maxHeartbeats 1600000 in
/-- The committed match of pattern 1 on the canonical template: group 1 is
`B`, group 2 is `I`, group 3 is `S`, and only the newline is left over. -/
theorem c1_hit {B I S : List Char} (hB : numLitP B) (hI : numLitP I)
    (hSne : S ≠ []) (hSd : S.all Char.isDigit = true) :
    (mall patAvgRich (cpuTemplate B I S)).head? = some ([(1, B), (2, I), (3, S)], '\n' :: []) := by
  have hsplit : cpuTemplate B I S = ("AVG busy".toList ++ (" (all cpus) ".toList ++ ('=' :: (' ' :: (B ++ (' ' :: ('%' :: (" (".toList ++ ("avg idle".toList ++ ('=' :: (I ++ ('%' :: (") over ".toList ++ (S ++ " samples\n".toList)))))))))))))) := by
    simp only [cpuTemplate, List.append_assoc]
    rfl
  have h21 : (mall (reStrCI "samples") "samples\n".toList).head? =
      some ([], '\n' :: []) := mall_lit_head rfl
  have h20 : (mall kSamp " samples\n".toList).head? = some ([], '\n' :: []) := by
    show (mall (.cat (.star .pyspace) (reStrCI "samples"))
      ([' '] ++ "samples\n".toList)).head? = _
    exact star_skip (by decide) (fun c hc => by rw [head_eq_of hc]; decide) h21
  have h19 : (mall kNum3 (S ++ " samples\n".toList)).head? = some ([(3, S)], '\n' :: []) := by
    show (mall (.cat (.grp 3 (.plus .digit)) kSamp) (S ++ " samples\n".toList)).head? = _
    exact natGrp_head hSne hSd (fun c hc => by rw [head_eq_of hc]; decide) h20
  have h18 : (mall kSp3 (' ' :: (S ++ " samples\n".toList))).head? = some ([(3, S)], '\n' :: []) := by
    show (mall (.cat (.star .pyspace) kNum3) ([' '] ++ (S ++ " samples\n".toList))).head? = _
    exact star_skip (by decide)
      (fun c hc => digit_not_space (numLit_head_digit (Or.inl ⟨hSne, hSd⟩) c hc)) h19
  have h17 : (mall kOver ("over".toList ++ (' ' :: (S ++ " samples\n".toList)))).head? = some ([(3, S)], '\n' :: []) := by
    show (mall (.cat (.lit true "over".toList) kSp3)
      ("over".toList ++ (' ' :: (S ++ " samples\n".toList)))).head? = _
    exact lit_skip (litMatch_cancel true "over".toList _) h18
  have h16 : (mall kStar3 (") ".toList ++ ("over".toList ++ (' ' :: (S ++ " samples\n".toList))))).head? =
      some ([(3, S)], '\n' :: []) := by
    show (mall (.cat (.star .any) kOver)
      (") ".toList ++ ("over".toList ++ (' ' :: (S ++ " samples\n".toList))))).head? = _
    refine starAny_skipTo ?_ ?_ h17
    · intro w hw hne
      cases w with
      | nil => exact absurd rfl hne
      | cons c cs => exact dead_litk_seg (by decide) hw
    · intro t ht hne
      have ht2 : t <:+ "ver".toList ++ (' ' :: (S ++ " samples\n".toList)) := by
        rw [show "over".toList ++ (' ' :: (S ++ " samples\n".toList)) =
          'o' :: ("ver".toList ++ (' ' :: (S ++ " samples\n".toList))) from rfl,
          List.suffix_cons_iff] at ht
        rcases ht with h2 | h2
        · exact absurd h2 hne
        · exact h2
      exact c1_B3dead hSd t ht2
  have h15 : (mall kPct2 ('%' :: (") over ".toList ++ (S ++ " samples\n".toList)))).head? = some ([(3, S)], '\n' :: []) := by
    show (mall (.cat (.lit true "%".toList) kStar3) ("%".toList ++ (") over ".toList ++ (S ++ " samples\n".toList)))).head? = _
    exact lit_skip (litMatch_cancel true "%".toList _) h16
  have h14 : (mall kSp2b ('%' :: (") over ".toList ++ (S ++ " samples\n".toList)))).head? = some ([(3, S)], '\n' :: []) := by
    show (mall (.cat (.star .pyspace) kPct2) ('%' :: (") over ".toList ++ (S ++ " samples\n".toList)))).head? = _
    exact star_skip0 (fun c hc => by rw [head_eq_of hc]; decide) h15
  have h13 : (mall kNum2 (I ++ ('%' :: (") over ".toList ++ (S ++ " samples\n".toList))))).head? = some ([(2, I), (3, S)], '\n' :: []) := by
    show (mall (.cat (numGrp 2) kSp2b) (I ++ ('%' :: (") over ".toList ++ (S ++ " samples\n".toList))))).head? = _
    exact numGrp_head hI
      (fun c hc => by rw [head_eq_of hc]; exact ⟨by decide, by decide⟩) h14
  have h12 : (mall kSp2a (I ++ ('%' :: (") over ".toList ++ (S ++ " samples\n".toList))))).head? = some ([(2, I), (3, S)], '\n' :: []) := by
    show (mall (.cat (.star .pyspace) kNum2) (I ++ ('%' :: (") over ".toList ++ (S ++ " samples\n".toList))))).head? = _
    exact star_skip0 (fun c hc => digit_not_space (numLit_head_digit hI c hc)) h13
  have h11 : (mall kEq2 ('=' :: (I ++ ('%' :: (") over ".toList ++ (S ++ " samples\n".toList)))))).head? = some ([(2, I), (3, S)], '\n' :: []) := by
    show (mall (.cat (.lit true "=".toList) kSp2a) ("=".toList ++ (I ++ ('%' :: (") over ".toList ++ (S ++ " samples\n".toList)))))).head? = _
    exact lit_skip (litMatch_cancel true "=".toList _) h12
  have h10 : (mall kSp2 ('=' :: (I ++ ('%' :: (") over ".toList ++ (S ++ " samples\n".toList)))))).head? = some ([(2, I), (3, S)], '\n' :: []) := by
    show (mall (.cat (.star .pyspace) kEq2) ('=' :: (I ++ ('%' :: (") over ".toList ++ (S ++ " samples\n".toList)))))).head? = _
    exact star_skip0 (fun c hc => by rw [head_eq_of hc]; decide) h11
  have h9 : (mall kIdle ("avg idle".toList ++ ('=' :: (I ++ ('%' :: (") over ".toList ++ (S ++ " samples\n".toList))))))).head? = some ([(2, I), (3, S)], '\n' :: []) := by
    show (mall (.cat (.lit true "avg idle".toList) kSp2)
      ("avg idle".toList ++ ('=' :: (I ++ ('%' :: (") over ".toList ++ (S ++ " samples\n".toList))))))).head? = _
    exact lit_skip (litMatch_cancel true "avg idle".toList _) h10
  have h8 : (mall kStar2 (" (".toList ++ ("avg idle".toList ++ ('=' :: (I ++ ('%' :: (") over ".toList ++ (S ++ " samples\n".toList)))))))).head? = some ([(2, I), (3, S)], '\n' :: []) := by
    show (mall (.cat (.star .any) kIdle) (" (".toList ++ ("avg idle".toList ++ ('=' :: (I ++ ('%' :: (") over ".toList ++ (S ++ " samples\n".toList)))))))).head? = _
    refine starAny_skipTo ?_ ?_ h9
    · intro w hw hne
      cases w with
      | nil => exact absurd rfl hne
      | cons c cs => exact dead_litk_seg (by decide) hw
    · intro t ht hne
      have ht2 : t <:+ "vg idle".toList ++ ('=' :: (I ++ ('%' :: (") over ".toList ++ (S ++ " samples\n".toList))))) := by
        rw [show "avg idle".toList ++ ('=' :: (I ++ ('%' :: (") over ".toList ++ (S ++ " samples\n".toList))))) =
          'a' :: ("vg idle".toList ++ ('=' :: (I ++ ('%' :: (") over ".toList ++ (S ++ " samples\n".toList)))))) from rfl,
          List.suffix_cons_iff] at ht
        rcases ht with h2 | h2
        · exact absurd h2 hne
        · exact h2
      exact c1_B2dead hI hSd t ht2
  have h7 : (mall kPct1 ('%' :: (" (".toList ++ ("avg idle".toList ++ ('=' :: (I ++ ('%' :: (") over ".toList ++ (S ++ " samples\n".toList))))))))).head? = some ([(2, I), (3, S)], '\n' :: []) := by
    show (mall (.cat (.lit true "%".toList) kStar2) ("%".toList ++ (" (".toList ++ ("avg idle".toList ++ ('=' :: (I ++ ('%' :: (") over ".toList ++ (S ++ " samples\n".toList))))))))).head? = _
    exact lit_skip (litMatch_cancel true "%".toList _) h8
  have h6 : (mall kSp1b (' ' :: ('%' :: (" (".toList ++ ("avg idle".toList ++ ('=' :: (I ++ ('%' :: (") over ".toList ++ (S ++ " samples\n".toList)))))))))).head? = some ([(2, I), (3, S)], '\n' :: []) := by
    show (mall (.cat (.star .pyspace) kPct1) ([' '] ++ ('%' :: (" (".toList ++ ("avg idle".toList ++ ('=' :: (I ++ ('%' :: (") over ".toList ++ (S ++ " samples\n".toList)))))))))).head? = _
    exact star_skip (by decide) (fun c hc => by rw [head_eq_of hc]; decide) h7
  have h5 : (mall kNum1 (B ++ (' ' :: ('%' :: (" (".toList ++ ("avg idle".toList ++ ('=' :: (I ++ ('%' :: (") over ".toList ++ (S ++ " samples\n".toList))))))))))).head? = some ([(1, B), (2, I), (3, S)], '\n' :: []) := by
    show (mall (.cat (numGrp 1) kSp1b) (B ++ (' ' :: ('%' :: (" (".toList ++ ("avg idle".toList ++ ('=' :: (I ++ ('%' :: (") over ".toList ++ (S ++ " samples\n".toList))))))))))).head? = _
    exact numGrp_head hB
      (fun c hc => by rw [head_eq_of hc]; exact ⟨by decide, by decide⟩) h6
  have h4 : (mall kSp1a (' ' :: (B ++ (' ' :: ('%' :: (" (".toList ++ ("avg idle".toList ++ ('=' :: (I ++ ('%' :: (") over ".toList ++ (S ++ " samples\n".toList)))))))))))).head? = some ([(1, B), (2, I), (3, S)], '\n' :: []) := by
    show (mall (.cat (.star .pyspace) kNum1) ([' '] ++ (B ++ (' ' :: ('%' :: (" (".toList ++ ("avg idle".toList ++ ('=' :: (I ++ ('%' :: (") over ".toList ++ (S ++ " samples\n".toList)))))))))))).head? = _
    exact star_skip (by decide)
      (fun c hc => digit_not_space (numLit_head_digit hB c hc)) h5
  have h3 : (mall kEq1 ('=' :: (' ' :: (B ++ (' ' :: ('%' :: (" (".toList ++ ("avg idle".toList ++ ('=' :: (I ++ ('%' :: (") over ".toList ++ (S ++ " samples\n".toList))))))))))))).head? = some ([(1, B), (2, I), (3, S)], '\n' :: []) := by
    show (mall (.cat (.lit true "=".toList) kSp1a) ("=".toList ++ (' ' :: (B ++ (' ' :: ('%' :: (" (".toList ++ ("avg idle".toList ++ ('=' :: (I ++ ('%' :: (") over ".toList ++ (S ++ " samples\n".toList))))))))))))).head? = _
    exact lit_skip (litMatch_cancel true "=".toList _) h4
  have h2 : (mall kStar1 (" (all cpus) ".toList ++ ('=' :: (' ' :: (B ++ (' ' :: ('%' :: (" (".toList ++ ("avg idle".toList ++ ('=' :: (I ++ ('%' :: (") over ".toList ++ (S ++ " samples\n".toList)))))))))))))).head? = some ([(1, B), (2, I), (3, S)], '\n' :: []) := by
    show (mall (.cat (.star .any) kEq1) (" (all cpus) ".toList ++ ('=' :: (' ' :: (B ++ (' ' :: ('%' :: (" (".toList ++ ("avg idle".toList ++ ('=' :: (I ++ ('%' :: (") over ".toList ++ (S ++ " samples\n".toList)))))))))))))).head? = _
    refine starAny_skipTo ?_ ?_ h3
    · intro w hw hne
      cases w with
      | nil => exact absurd rfl hne
      | cons c cs => exact dead_litk_seg (by decide) hw
    · intro t ht hne
      have ht2 : t <:+ ' ' :: (B ++ (" % (avg idle".toList ++ ('=' :: (I ++ ('%' :: (") over ".toList ++ (S ++ " samples\n".toList))))))) := by
        rw [List.suffix_cons_iff] at ht
        rcases ht with h2 | h2
        · exact absurd h2 hne
        · exact h2
      exact c1_D1 hB hI hSd t ht2
  rw [patAvgRich_eq, hsplit]
  show (mall (.cat (.lit true "AVG busy".toList) kStar1)
    ("AVG busy".toList ++ (" (all cpus) ".toList ++ ('=' :: (' ' :: (B ++ (' ' :: ('%' :: (" (".toList ++ ("avg idle".toList ++ ('=' :: (I ++ ('%' :: (") over ".toList ++ (S ++ " samples\n".toList))))))))))))))).head? = _
  exact lit_skip (litMatch_cancel true "AVG busy".toList _) h2

/-- C1: corrected.  On the canonical CPU-log line
`AVG busy (all cpus) = B % (avg idle=I%) over S samples` — with arbitrary
numeric literals `B`, `I` and digit run `S` — `parse_avg_cpu_file` of both
variants returns exactly busy = B, idle = I, samples = S.  The original
claim's "arbitrary noise text between the captured tokens" is refuted by the
counterexample: the greedy `.*` lets a competing `= N %` token inside the
noise steal the busy capture. -/
theorem claim_C1 (B I S : List Char) (hB : numLitP B) (hI : numLitP I)
    (hS : S ≠ [] ∧ S.all Char.isDigit = true) :
    parse_avg_cpu_file₁ (cpuTemplate B I S) =
      some ⟨some (decToQ B), some (decToQ I), some (digitsToNat S)⟩ ∧
    parse_avg_cpu_file₂ (cpuTemplate B I S) =
      some ⟨some (decToQ B), some (decToQ I), some (digitsToNat S)⟩ := by
  have hmain := c1_hit hB hI hS.1 hS.2
  obtain ⟨tl, htl⟩ := List.head?_eq_some_iff.mp hmain
  have hsr : searchFrom patAvgRich (cpuTemplate B I S) =
      some ⟨(cpuTemplate B I S).take
          ((cpuTemplate B I S).length - ('\n' :: []).length),
        [(1, B), (2, I), (3, S)]⟩ := by
    rw [searchFrom_eq, htl]
  constructor
  · unfold parse_avg_cpu_file₁
    rw [hsr]
    rfl
  · unfold parse_avg_cpu_file₂
    rw [hsr]
    rfl

/-- C1 witness: the amended theorem applied to the log line
`AVG busy (all cpus) = 11.75 % (avg idle=88.25%) over 1990 samples`. -/
theorem claim_C1_witness :
    parse_avg_cpu_file₁ (cpuTemplate "11.75".toList "88.25".toList "1990".toList) =
      some ⟨some (decToQ "11.75".toList), some (decToQ "88.25".toList),
        some (digitsToNat "1990".toList)⟩ :=
  (claim_C1 "11.75".toList "88.25".toList "1990".toList
    (Or.inr ⟨"11".toList, "75".toList, rfl, by decide, by decide, by decide,
      by decide⟩)
    (Or.inr ⟨"88".toList, "25".toList, rfl, by decide, by decide, by decide,
      by decide⟩)
    ⟨by decide, by decide⟩).1

set_option maxRecDepth 40000 in
/-- C1 counterexample: with noise text between the tokens the values are NOT
recovered as embedded — on
`AVG busy = 11 % x = 99 % y avg idle=88% over 1990 samples` the greedy `.*`
hands the busy capture to the `99` from the noise, not the embedded `11`
(both variants). -/
theorem claim_C1_cex :
    parse_avg_cpu_file₁
        "AVG busy = 11 % x = 99 % y avg idle=88% over 1990 samples".toList =
      some ⟨some (decToQ "99".toList), some (decToQ "88".toList),
        some (digitsToNat "1990".toList)⟩ ∧
    parse_avg_cpu_file₂
        "AVG busy = 11 % x = 99 % y avg idle=88% over 1990 samples".toList =
      some ⟨some (decToQ "99".toList), some (decToQ "88".toList),
        some (digitsToNat "1990".toList)⟩ ∧
    decToQ "99".toList ≠ decToQ "11".toList := by
  refine ⟨rfl, rfl, ?_⟩
  have h1 : decToQ "99".toList = (99 : ℚ) := rfl
  have h2 : decToQ "11".toList = (11 : ℚ) := rfl
  rw [h1, h2]
  norm_num

end Waf
